import Mathlib

/-!
Verification of the signed-webhook forwarding gateway (Rust) against its
natural-language specification.  The Rust sources are embedded shallowly:
pure functions become Lean functions, the stateful token cache and
scheduler become explicit state passing, machine integers become Nat,
fallible code returns Option or Except.  JSON values follow
serde_json::Value, with numbers restricted to integers (the payloads the
gateway classifies carry no floating point that the claims depend on).
-/

set_option maxHeartbeats 1000000

/-- Model of serde_json::Value.  Strings and object keys are character
lists; objects mirror BTreeMap<String, Value>: entries kept strictly
sorted by key.  Numbers are modelled as integers. -/
inductive JValue where
  | null
  | bool (b : Bool)
  | num (n : Int)
  | str (s : List Char)
  | arr (items : List JValue)
  | obj (entries : List (List Char × JValue))

/-- Value::get(&str) — field access: Some for an object containing the
key, None for every other variant or a missing key. -/
def jGet (v : JValue) (k : List Char) : Option JValue :=
  match v with
  | .obj entries => lookupKey entries
  | _ => none
where lookupKey : List (List Char × JValue) → Option JValue
  | [] => none
  | (k0, v0) :: rest => if k0 = k then some v0 else lookupKey rest

/-- Value::as_str — Some only for the string variant. -/
def jAsStr (v : JValue) : Option (List Char) :=
  match v with
  | .str s => some s
  | _ => none

/-- The "[*]" path segment sentinel used by the repo's path walker
(src/utils/json.rs). -/
def starSeg : List Char := ['[', '*', ']']

/-- navigate_json_path (src/utils/json.rs 28-56): returns every value
reachable along the path; "[*]" fans out over array elements, a field
name descends into an object.  Missing fields or wrong variants yield
no results. -/
def navigateJsonPath (current : JValue) (path : List (List Char)) : List JValue :=
  match path with
  | [] => [current]
  | seg :: remaining =>
    if seg = starSeg then
      match current with
      | .arr items => items.flatMap (fun item => navigateJsonPath item remaining)
      | _ => []
    else
      match jGet current seg with
      | some fieldValue => navigateJsonPath fieldValue remaining
      | none => []

/-- json_path_exists (src/utils/json.rs 13-15). -/
def jsonPathExists (json : JValue) (path : List (List Char)) : Bool :=
  !(navigateJsonPath json path).isEmpty

/-- json_path_equals (src/utils/json.rs 19-23). -/
def jsonPathEquals (json : JValue) (path : List (List Char)) (expected : List Char) : Bool :=
  (navigateJsonPath json path).any (fun value => jAsStr value = some expected)

/-- The DR status path entry[*].changes[*].value.statuses. -/
def drStatusPath : List (List Char) :=
  ["entry".data, starSeg, "changes".data, starSeg, "value".data, "statuses".data]

/-- The Inbound Flow path data.entry[*].changes[*].value.messages[*].interactive.type. -/
def inboundFlowPath : List (List Char) :=
  ["data".data, "entry".data, starSeg, "changes".data, starSeg,
   "value".data, "messages".data, starSeg, "interactive".data, "type".data]

/-- is_dr_payload (src/utils/json.rs 62-70). -/
def isDrPayload (json : JValue) : Bool :=
  if (jGet json "error".data).isSome then true
  else jsonPathExists json drStatusPath

/-- is_inbound_flow_payload (src/utils/json.rs 75-82). -/
def isInboundFlowPayload (json : JValue) : Bool :=
  jsonPathEquals json inboundFlowPath "nfm_reply".data

/-- str::contains — substring test on character lists. -/
def containsL (hay needle : List Char) : Bool :=
  match hay with
  | [] => needle.isEmpty
  | _ :: t => needle.isPrefixOf hay || containsL t needle

/-- str::contains on strings. -/
def strContains (hay needle : String) : Bool :=
  containsL hay.data needle.data

/-- AppError (src/utils/error.rs).  Each variant carries the display text
of its payload as a string. -/
inductive AppError where
  | httpRequest (m : String)
  | serialization (m : String)
  | configLoad (m : String)
  | authenticationFailed (m : String)
  | messageProcessing (m : String)
  | payloadConversion (m : String)
  | webhookType (m : String)
  | configuration (m : String)
  | ioErr (m : String)
  | loggingInit (m : String)
  | generic (m : String)
  | hmac (m : String)

/-- The thiserror Display string of an AppError (the #[error("...")]
format strings of src/utils/error.rs). -/
def errorMessage : AppError → String
  | .httpRequest m => "HTTP request error: " ++ m
  | .serialization m => "Serialization error: " ++ m
  | .configLoad m => "Configuration error: " ++ m
  | .authenticationFailed m => "Authentication failed: " ++ m
  | .messageProcessing m => "Message processing error: " ++ m
  | .payloadConversion m => "Payload conversion error: " ++ m
  | .webhookType m => "Webhook type error: " ++ m
  | .configuration m => "Configuration error: " ++ m
  | .ioErr m => "IO error: " ++ m
  | .loggingInit m => "Logging initialization error: " ++ m
  | .generic m => "Generic error: " ++ m
  | .hmac m => "HMAC error: " ++ m

/-- is_authentication_error (src/services/permata_callbackstatus_client.rs
227-241, duplicated in src/services/webhook_processor.rs 27-41):
AuthenticationFailed and Hmac kinds, else sniffing the display string. -/
def isAuthenticationError (e : AppError) : Bool :=
  match e with
  | .authenticationFailed _ => true
  | .hmac _ => true
  | _ =>
    let m := errorMessage e
    strContains m "Login failed" ||
    strContains m "Token" ||
    strContains m "authentication" ||
    strContains m "unauthorized" ||
    strContains m "Unauthorized" ||
    strContains m "401"

/-- The HttpTransport error kind: a network call failed before an HTTP
status was obtained (connection refused, DNS, read timeout, TLS).  This
is the "transport or timeout error" vocabulary of the specification. -/
def isTransportError (e : AppError) : Bool :=
  match e with
  | .httpRequest _ => true
  | _ => false

/-- Result of one run of the forwarder retry loop: the final value, the
number of attempts made, and how many retry-delay sleeps happened. -/
structure SendOutcome (α : Type) where
  result : Except AppError α
  attemptsMade : Nat
  sleeps : Nat

/-- The body of the retry loop of send_webhook_with_context
(src/services/permata_callbackstatus_client.rs 39-88), from a given
attempt number: an Ok attempt returns at once; an error classified as an
authentication error returns at once; any other error is recorded and,
after a retry-delay sleep when attempts remain, retried.  After the loop,
last_error.unwrap() is returned: none models the panic when
max_retries = 0 and no attempt ever ran. -/
def sendWebhookGo (outcome : Nat → Except AppError α) (maxRetries : Nat) :
    Nat → Nat → Option AppError → Nat → Option (SendOutcome α)
  | 0, _, lastError, sleeps =>
    (match lastError with
     | some e => some ⟨.error e, maxRetries, sleeps⟩
     | none => none)
  | remaining + 1, attempt, _lastError, sleeps =>
    match outcome attempt with
    | .ok response => some ⟨.ok response, attempt, sleeps⟩
    | .error e =>
      if isAuthenticationError e then some ⟨.error e, attempt, sleeps⟩
      else if attempt < maxRetries then
        sendWebhookGo outcome maxRetries remaining (attempt + 1) (some e) (sleeps + 1)
      else
        sendWebhookGo outcome maxRetries remaining (attempt + 1) (some e) sleeps

/-- send_webhook_with_context (src/services/permata_callbackstatus_client.rs
39-88): run the attempts 1..=max_retries (the iterations-left counter
realizes the for-range; it starts at max_retries). -/
def sendWebhook (outcome : Nat → Except AppError α) (maxRetries : Nat) :
    Option (SendOutcome α) :=
  sendWebhookGo outcome maxRetries maxRetries 1 none 0

/-- TokenResponse (src/models/mod.rs 22-28). -/
structure TokenResponse where
  access_token : String
  token_type : String
  expires_in : Nat
  scope : String

/-- CachedToken (src/services/permata_login.rs 22-26); the monotonic
Instant is modelled as a Nat tick count. -/
structure CachedToken where
  token : String
  expiresAt : Nat

/-- Result of one get_token_with_context call: the returned token or
error, the cache afterwards, and whether a login round was performed. -/
structure TokenStep where
  result : Except AppError String
  cache : Option CachedToken
  didLogin : Bool

/-- get_token_with_context (src/services/permata_login.rs 54-97) for the
single logical key: return the cached token while expires_at > now, else
perform a login (its outcome supplied as loginResult) and on success
cache the new token with expires_at = now + expires_in.saturating_sub(300);
Nat subtraction is saturating exactly like u64::saturating_sub. -/
def getTokenWithContext (cache : Option CachedToken) (now : Nat)
    (loginResult : Except AppError TokenResponse) : TokenStep :=
  match cache with
  | some cachedToken =>
    if cachedToken.expiresAt > now then ⟨.ok cachedToken.token, cache, false⟩
    else loginPath
  | none => loginPath
where loginPath : TokenStep :=
  match loginResult with
  | .error e => ⟨.error e, cache, true⟩
  | .ok tokenResponse =>
    let expiresAt := now + (tokenResponse.expires_in - 300)
    ⟨.ok tokenResponse.access_token,
     some ⟨tokenResponse.access_token, expiresAt⟩, true⟩

/-- The mutable state of a LoginHandler: the token cache slot and whether
the periodic refresher task is running (token_scheduler.periodic_handle
is Some). -/
structure LoginHandlerState where
  tokenCache : Option CachedToken
  schedulerActive : Bool

/-- clear_cache_with_context (src/services/permata_login.rs 239-251):
cache.clear() followed by token_scheduler.stop_scheduler(). -/
def clearCacheWithContext (s : LoginHandlerState) : LoginHandlerState :=
  { s with tokenCache := none, schedulerActive := false }

/-- stop_scheduler (src/services/token_scheduler.rs 135-146): take and
abort the periodic task handle. -/
def stopScheduler (s : LoginHandlerState) : LoginHandlerState :=
  { s with schedulerActive := false }

/-- shutdown (src/services/permata_login.rs 267-275 together with
src/services/token_scheduler.rs 177-185): stops the scheduler. -/
def shutdownHandler (s : LoginHandlerState) : LoginHandlerState :=
  stopScheduler s

/-- start_scheduler (src/services/token_scheduler.rs 35-51): aborts any
previous periodic task and stores a fresh handle. -/
def startScheduler (s : LoginHandlerState) : LoginHandlerState :=
  { s with schedulerActive := true }

/-- Lexicographic byte order on keys — the Ord on Rust String that
BTreeMap<String, Value> sorts by (UTF-8 byte order coincides with
code-point order). -/
def keyLt : List Char → List Char → Bool
  | [], [] => false
  | [], _ :: _ => true
  | _ :: _, [] => false
  | a :: as, b :: bs =>
    if a.toNat < b.toNat then true
    else if b.toNat < a.toNat then false
    else keyLt as bs

/-- BTreeMap::insert on the sorted-entry representation: place the new
entry at its ordered position, replacing the value when the key is
already present (last write wins, as when serde_json parses duplicate
object keys). -/
def mapInsert (k : List Char) (v : JValue) :
    List (List Char × JValue) → List (List Char × JValue)
  | [] => [(k, v)]
  | (k0, v0) :: rest =>
    if keyLt k k0 then (k, v) :: (k0, v0) :: rest
    else if keyLt k0 k then (k0, v0) :: mapInsert k v rest
    else (k, v) :: rest

/-- Lowercase hexadecimal digit, as serde_json emits in \u00XX escapes. -/
def hexDigitChar (n : Nat) : Char :=
  if n < 10 then Char.ofNat (48 + n) else Char.ofNat (87 + n)

/-- serde_json string escaping: short escapes for quote, backslash,
backspace, tab, newline, form feed, carriage return; \u00XX for the
remaining control characters; everything else verbatim. -/
def escapeChar (c : Char) : List Char :=
  if c = '"' then ['\\', '"']
  else if c = '\\' then ['\\', '\\']
  else if c.toNat = 8 then ['\\', 'b']
  else if c.toNat = 9 then ['\\', 't']
  else if c.toNat = 10 then ['\\', 'n']
  else if c.toNat = 12 then ['\\', 'f']
  else if c.toNat = 13 then ['\\', 'r']
  else if c.toNat < 32 then
    '\\' :: 'u' :: '0' :: '0' :: [hexDigitChar (c.toNat / 16), hexDigitChar (c.toNat % 16)]
  else [c]

/-- A serialized JSON string: quoted, character-wise escaped. -/
def serStr (s : List Char) : List Char :=
  '"' :: (s.flatMap escapeChar ++ ['"'])

/-- Decimal digit characters of a natural number, most significant
first. -/
def natChars (n : Nat) : List Char :=
  if n < 10 then [Char.ofNat (48 + n)]
  else natChars (n / 10) ++ [Char.ofNat (48 + n % 10)]
termination_by n
decreasing_by exact Nat.div_lt_self (by omega) (by omega)

/-- Decimal rendering of an integer, as serde_json prints i64 values. -/
def intChars (n : Int) : List Char :=
  if n < 0 then '-' :: natChars n.natAbs else natChars n.natAbs

mutual
/-- serde_json::to_string on a Value: minimal separators, no
whitespace, object entries in stored (BTreeMap) order. -/
def jserialize : JValue → List Char
  | .null => "null".data
  | .bool true => "true".data
  | .bool false => "false".data
  | .num n => intChars n
  | .str s => serStr s
  | .arr items => '[' :: (serItems items ++ [']'])
  | .obj entries => '{' :: (serEntries entries ++ ['}'])

/-- Comma-joined serialization of array items. -/
def serItems : List JValue → List Char
  | [] => []
  | [x] => jserialize x
  | x :: y :: xs => jserialize x ++ ',' :: serItems (y :: xs)

/-- Comma-joined serialization of object entries, each as key:value. -/
def serEntries : List (List Char × JValue) → List Char
  | [] => []
  | [(k, v)] => serStr k ++ ':' :: jserialize v
  | (k, v) :: e :: es => serStr k ++ ':' :: jserialize v ++ ',' :: serEntries (e :: es)
end

/-- JSON insignificant whitespace (RFC 8259, as serde_json skips). -/
def isWsChar (c : Char) : Bool :=
  c = ' ' || c = '\t' || c = '\n' || c = '\r'

/-- Drop leading insignificant whitespace. -/
def dropWs : List Char → List Char
  | c :: r => if isWsChar c then dropWs r else c :: r
  | [] => []

/-- ASCII decimal digit test. -/
def isDigitChar (c : Char) : Bool :=
  48 ≤ c.toNat && c.toNat ≤ 57

/-- Split a leading run of decimal digits from the input. -/
def digitSpan : List Char → List Char × List Char
  | c :: r =>
    if isDigitChar c then
      let p := digitSpan r
      (c :: p.1, p.2)
    else ([], c :: r)
  | [] => ([], [])

/-- Numeric value of a digit run. -/
def digitsNat (ds : List Char) : Nat :=
  ds.foldl (fun a c => a * 10 + (c.toNat - 48)) 0

/-- One hexadecimal digit of a \uXXXX escape. -/
def hexNibble (c : Char) : Option Nat :=
  if 48 ≤ c.toNat && c.toNat ≤ 57 then some (c.toNat - 48)
  else if 97 ≤ c.toNat && c.toNat ≤ 102 then some (c.toNat - 87)
  else if 65 ≤ c.toNat && c.toNat ≤ 70 then some (c.toNat - 55)
  else none

/-- Value of the four hex digits of a \uXXXX escape. -/
def hexQuad (a b c d : Char) : Option Nat :=
  match hexNibble a, hexNibble b, hexNibble c, hexNibble d with
  | some x, some y, some z, some w => some (((x * 16 + y) * 16 + z) * 16 + w)
  | _, _, _, _ => none

/-- The character named by a single-letter escape. -/
def shortEscape (e : Char) : Option Char :=
  if e = '"' then some '"'
  else if e = '\\' then some '\\'
  else if e = '/' then some '/'
  else if e = 'b' then some (Char.ofNat 8)
  else if e = 'f' then some (Char.ofNat 12)
  else if e = 'n' then some (Char.ofNat 10)
  else if e = 'r' then some (Char.ofNat 13)
  else if e = 't' then some (Char.ofNat 9)
  else none

/-- Parse a JSON string body (after the opening quote) up to its closing
quote, as serde_json does: escapes decoded, unescaped control
characters rejected, surrogate \uXXXX values rejected (the model leaves
out surrogate-pair decoding). -/
def parseJString : List Char → Option (List Char × List Char)
  | [] => none
  | '"' :: r => some ([], r)
  | '\\' :: 'u' :: a :: b :: c :: d :: r =>
    (match hexQuad a b c d with
     | none => none
     | some n =>
       if 55296 ≤ n && n ≤ 57343 then none
       else (parseJString r).map (fun p => (Char.ofNat n :: p.1, p.2)))
  | '\\' :: e :: r =>
    (match shortEscape e with
     | none => none
     | some ch => (parseJString r).map (fun p => (ch :: p.1, p.2)))
  | c :: r =>
    if c.toNat < 32 then none
    else (parseJString r).map (fun p => (c :: p.1, p.2))

/-- Parse an unsigned JSON integer: a nonempty digit run with no
redundant leading zero (serde_json rejects 01). -/
def parseNatNum (cs : List Char) : Option (Nat × List Char) :=
  match digitSpan cs with
  | ([], _) => none
  | (d :: ds, rest) =>
    if d = '0' && !ds.isEmpty then none
    else some (digitsNat (d :: ds), rest)

mutual
/-- serde_json::from_str value grammar (numbers restricted to integers,
exponents and fractions outside the model): skip whitespace, then
dispatch on the first character. -/
def parseJValue (fuel : Nat) (cs : List Char) : Option (JValue × List Char) :=
  match fuel with
  | 0 => none
  | fuel + 1 =>
    match dropWs cs with
    | 'n' :: 'u' :: 'l' :: 'l' :: r => some (.null, r)
    | 't' :: 'r' :: 'u' :: 'e' :: r => some (.bool true, r)
    | 'f' :: 'a' :: 'l' :: 's' :: 'e' :: r => some (.bool false, r)
    | '"' :: r => (parseJString r).map (fun p => (.str p.1, p.2))
    | '-' :: r => (parseNatNum r).map (fun p => (.num (-(p.1 : Int)), p.2))
    | '[' :: r =>
      (match dropWs r with
       | ']' :: r2 => some (.arr [], r2)
       | r2 => (parseItems fuel r2).map (fun p => (.arr p.1, p.2)))
    | '{' :: r =>
      (match dropWs r with
       | '}' :: r2 => some (.obj [], r2)
       | r2 => (parseEntries fuel [] r2).map (fun p => (.obj p.1, p.2)))
    | c :: r =>
      if isDigitChar c then
        (parseNatNum (c :: r)).map (fun p => (.num (p.1 : Int), p.2))
      else none
    | [] => none

/-- One-or-more comma-separated array items, consuming the closing
bracket. -/
def parseItems (fuel : Nat) (cs : List Char) : Option (List JValue × List Char) :=
  match fuel with
  | 0 => none
  | fuel + 1 =>
    match parseJValue fuel cs with
    | none => none
    | some (v, r) =>
      match dropWs r with
      | ',' :: r2 => (parseItems fuel r2).map (fun p => (v :: p.1, p.2))
      | ']' :: r2 => some ([v], r2)
      | _ => none

/-- One-or-more comma-separated key:value members, consuming the closing
brace; members accumulate through mapInsert exactly as serde_json feeds
a BTreeMap. -/
def parseEntries (fuel : Nat) (acc : List (List Char × JValue)) (cs : List Char) :
    Option (List (List Char × JValue) × List Char) :=
  match fuel with
  | 0 => none
  | fuel + 1 =>
    match dropWs cs with
    | '"' :: r =>
      (match parseJString r with
       | none => none
       | some (key, r1) =>
         match dropWs r1 with
         | ':' :: r2 =>
           (match parseJValue fuel r2 with
            | none => none
            | some (v, r3) =>
              match dropWs r3 with
              | ',' :: r4 => parseEntries fuel (mapInsert key v acc) r4
              | '}' :: r4 => some (mapInsert key v acc, r4)
              | _ => none)
         | _ => none)
    | _ => none
end

/-- serde_json::from_str::<Value> on a character list: parse one value,
then require only whitespace to remain. -/
def jparse (cs : List Char) : Option JValue :=
  match parseJValue (cs.length + 1) cs with
  | some (v, r) => if (dropWs r).isEmpty then some v else none
  | none => none

/-- compact_json (src/utils/json.rs 5-9): serde_json::from_str then
serde_json::to_string. -/
def compactJson (cs : List Char) : Option (List Char) :=
  (jparse cs).map jserialize

/-- The specification's parse_then_serialize operation (§8 Round-trip). -/
def parseThenSerialize (cs : List Char) : Option (List Char) :=
  (jparse cs).map jserialize

/-- should_process_payload (src/handlers/webhook_server.rs 80-132): parse
the body; forward iff it is a DR or an Inbound Flow payload; a parse
failure is not processed (it is acknowledged and alerted). -/
def shouldProcessPayload (body : List Char) : Bool :=
  match jparse body with
  | some json => isDrPayload json || isInboundFlowPayload json
  | none => false

/-- extract_request_id fallback to "id" (src/utils/request_id.rs 13-20):
"req-" + id when top-level id is a non-empty string, else "req-" + a
fresh UUID (the freshly drawn UUID text is passed in explicitly). -/
def extractIdOrUuid (json : JValue) (freshUuid : List Char) : List Char :=
  match (jGet json "id".data).bind jAsStr with
  | some i => if !i.isEmpty then "req-".data ++ i else "req-".data ++ freshUuid
  | none => "req-".data ++ freshUuid

/-- extract_request_id (src/utils/request_id.rs 3-27): prefer a non-empty
top-level "xid" string, then a non-empty "id" string, else a fresh
UUID; a body that is not JSON also falls back to the fresh UUID. -/
def extractRequestId (payload freshUuid : List Char) : List Char :=
  match jparse payload with
  | some json =>
    match (jGet json "xid".data).bind jAsStr with
    | some xid =>
      if !xid.isEmpty then "req-".data ++ xid
      else extractIdOrUuid json freshUuid
    | none => extractIdOrUuid json freshUuid
  | none => "req-".data ++ freshUuid

/-- The correlation id that handle_webhook actually uses
(src/handlers/webhook_server.rs 43): format!("req-\x7b\x7d", Uuid::new_v4()),
computed before the body is read; the freshly drawn UUID text is passed
in explicitly.  It is the request_id handed to should_process_payload,
to the processor and to every log line of the request. -/
def handlerRequestId (freshUuid : List Char) : List Char :=
  "req-".data ++ freshUuid

/-- ForwardResult (spec §3) alias WebhookResponse: the
http-status/body pair the current processor hands to the ingress.  The
struct is consumed by src/handlers/webhook_server.rs 208-226 and by
tests/unit/services/webhook_processor.rs; its defining module is not
under src/. -/
structure WebhookResponse where
  http_status : Nat
  body : String

/-- PermataWebhookResponse (src/models/mod.rs 53-59). -/
structure PermataWebhookResponse where
  status_code : String
  status_desc : String

/-- An HTTP response of the ingress adapter. -/
structure HttpResponse where
  status : Nat
  body : String

/-- StatusCode::from_u16(...).unwrap_or(BAD_GATEWAY)
(src/handlers/webhook_server.rs 211-212): the http crate accepts
100..=999, anything else becomes 502. -/
def statusCodeFromU16Or502 (s : Nat) : Nat :=
  if 100 ≤ s ∧ s < 1000 then s else 502

/-- The ignore acknowledgement body (src/handlers/webhook_server.rs 195). -/
def successAckBody : String :=
  "\x7b\"StatusCode\":\"00\",\"StatusDesc\":\"Success\"\x7d"

/-- The error response body of the ingress
(src/handlers/webhook_server.rs 234). -/
def statusCode06Body (desc : String) : String :=
  "\x7b\"StatusCode\":\"06\",\"StatusDesc\":\"" ++ desc ++ "\"\x7d"

/-- The authentication-failure body of spec §4.6 step 7. -/
def authFailedBody (msg : String) : String :=
  "\x7b\"error\":\"Authentication failed\",\"message\":\"" ++ msg ++ "\"\x7d"

/-- process_webhook of the ingress (src/handlers/webhook_server.rs
157-242), given the processor outcome for the forwarded case: an
unclassified body is acknowledged with 200/success and the processor is
never invoked (the Bool records whether it was); a processor Ok maps the
bank status through from_u16-or-502 and passes the body through
verbatim; a processor Err becomes 500 with a StatusCode 06 body. -/
def processWebhookIngress (body : List Char)
    (processorResult : Except AppError WebhookResponse) : HttpResponse × Bool :=
  if shouldProcessPayload body then
    match processorResult with
    | .ok webhookResponse =>
      (⟨statusCodeFromU16Or502 webhookResponse.http_status, webhookResponse.body⟩, true)
    | .error e => (⟨500, statusCode06Body (errorMessage e)⟩, true)
  else
    (⟨200, successAckBody⟩, false)

/-- Modelled from the spec: the webhook processor the ingress compiles
against — returning WebhookResponse\x7bhttp_status, body\x7d, referenced by
src/handlers/webhook_server.rs 208-226 and by
tests/unit/services/webhook_processor.rs — is not under src/
(src/services/webhook_processor.rs is a historical version returning
Result<()>).  Spec §4.6 steps 6-8: a forward success passes through
verbatim; a forward error classified as an authentication error becomes
Ok with status 401 and the authentication-failure body; any other error
propagates to the ingress error arm. -/
def processorMapResult (forwardResult : Except AppError WebhookResponse) :
    Except AppError WebhookResponse :=
  match forwardResult with
  | .ok r => .ok r
  | .error e =>
    if isAuthenticationError e then .ok ⟨401, authFailedBody (errorMessage e)⟩
    else .error e

/-- Modelled from the spec: one attempt of the verbatim-proxy forward of
spec §4.5 (steps 1-7), whose implementation is not under src/
(src/services/permata_callbackstatus_client.rs is the historical
status-interpreting version).  Step 1: a token failure stops the
attempt; step 3: a body that cannot be compacted is a PayloadConversion
error; step 5-6: a transport failure is an HttpTransport error; step 7:
any HTTP answer, 2xx or not, is returned verbatim as \x7bstatus, body\x7d. -/
def specForwardAttempt (tokenResult : Except AppError String)
    (compactResult : Option (List Char))
    (bankAnswer : Except String (Nat × String)) : Except AppError WebhookResponse :=
  match tokenResult with
  | .error e => .error e
  | .ok _ =>
    match compactResult with
    | none => .error (.payloadConversion "request body is not valid JSON")
    | some _ =>
      match bankAnswer with
      | .error transport => .error (.httpRequest transport)
      | .ok (status, respBody) => .ok ⟨status, respBody⟩

/-- The environment one iteration of make_webhook_request_with_context
observes: the token fetch outcome, the POST outcome (transport error or
status/body), and the serde decode of a 2xx body into
PermataWebhookResponse (reqwest surfaces a decode failure as an
HttpRequest error whose text is bodyDecodeError). -/
structure AttemptEnv where
  tokenResult : Except AppError String
  sendResult : Except String (Nat × String)
  parsedBody : Option PermataWebhookResponse
  bodyDecodeError : String

/-- The Display text of an http StatusCode: code and canonical reason. -/
def statusDisplay (s : Nat) : String :=
  if s = 200 then "200 OK"
  else if s = 401 then "401 Unauthorized"
  else if s = 403 then "403 Forbidden"
  else if s = 404 then "404 Not Found"
  else if s = 500 then "500 Internal Server Error"
  else if s = 502 then "502 Bad Gateway"
  else toString s ++ " <unknown status code>"

/-- make_webhook_request_with_context
(src/services/permata_callbackstatus_client.rs 90-225), the 0..2
relogin loop (iterations left, current iteration number): fetch a token,
compact the body (a serde failure is a Serialization error), send; a 403
whose body names the OAuth2 failure clears the cache and retries once,
then fails AuthenticationFailed; any other non-2xx is a
MessageProcessing error; a 2xx body is decoded and a StatusCode other
than "00" is a MessageProcessing error, else Ok. -/
def makeWebhookRequestIter (env : Nat → AttemptEnv) (webhookBody : List Char) :
    Nat → Nat → Except AppError PermataWebhookResponse
  | 0, _ =>
    .error (.messageProcessing "Unexpected error in webhook retry logic")
  | remaining + 1, iter =>
    let a := env iter
    match a.tokenResult with
    | .error e => .error e
    | .ok _accessToken =>
      match compactJson webhookBody with
      | none => .error (.serialization "invalid JSON body")
      | some _compacted =>
        match a.sendResult with
        | .error transport => .error (.httpRequest transport)
        | .ok (status, respBody) =>
          if status = 403 then
            if strContains respBody "403" && strContains respBody "Failed Authentication OAuth2" then
              if iter = 0 then makeWebhookRequestIter env webhookBody remaining (iter + 1)
              else .error (.authenticationFailed
                ("Failed Authentication OAuth2 after relogin: " ++ respBody))
            else .error (.messageProcessing
              ("Permata webhook failed: " ++ statusDisplay status ++ " - " ++ respBody))
          else if ¬ (200 ≤ status ∧ status ≤ 299) then
            .error (.messageProcessing
              ("Permata webhook failed: " ++ statusDisplay status ++ " - " ++ respBody))
          else
            match a.parsedBody with
            | none => .error (.httpRequest a.bodyDecodeError)
            | some webhookResponse =>
              if webhookResponse.status_code ≠ "00" then
                .error (.messageProcessing
                  ("Permata Bank error: " ++ webhookResponse.status_code ++ " - "
                    ++ webhookResponse.status_desc))
              else .ok webhookResponse

/-- make_webhook_request_with_context from its first iteration: the
0..2 range gives two iterations. -/
def makeWebhookRequest (env : Nat → AttemptEnv) (webhookBody : List Char) :
    Except AppError PermataWebhookResponse :=
  makeWebhookRequestIter env webhookBody 2 0

/-- Declarative path resolution, read off the specification (§4.2): a
value resolves to itself under the empty path; a field segment follows
the named field of an object; the "[*]" segment follows every element of
an array.  Missing fields and wrong variants resolve to nothing. -/
inductive Resolves : JValue → List (List Char) → JValue → Prop where
  | here (v : JValue) : Resolves v [] v
  | field (v : JValue) (seg : List Char) (path : List (List Char)) (w u : JValue) :
      seg ≠ starSeg → jGet v seg = some w → Resolves w path u →
      Resolves v (seg :: path) u
  | star (items : List JValue) (path : List (List Char)) (x u : JValue) :
      x ∈ items → Resolves x path u → Resolves (.arr items) (starSeg :: path) u

/-- The specification's is_dr predicate: a top-level "error" field (any
value), or at least one node at entry[*].changes[*].value.statuses. -/
def IsDrSpec (v : JValue) : Prop :=
  (∃ w, jGet v "error".data = some w) ∨ ∃ u, Resolves v drStatusPath u

/-- The specification's is_inbound_flow predicate: the path
data.entry[*].changes[*].value.messages[*].interactive.type resolves to
at least one string equal to "nfm_reply". -/
def IsInboundFlowSpec (v : JValue) : Prop :=
  ∃ u, Resolves v inboundFlowPath u ∧ u = .str "nfm_reply".data

/-- The BTreeMap invariant on an entry list: keys pairwise strictly
ascending. -/
def entriesSorted (entries : List (List Char × JValue)) : Prop :=
  entries.Pairwise (fun p q => keyLt p.1 q.1 = true)

/-- The values serde_json::from_str can produce in this model: object
entry lists strictly sorted by key, recursively. -/
inductive WFJ : JValue → Prop where
  | null : WFJ .null
  | bool (b : Bool) : WFJ (.bool b)
  | num (n : Int) : WFJ (.num n)
  | str (s : List Char) : WFJ (.str s)
  | arr (items : List JValue) : (∀ x ∈ items, WFJ x) → WFJ (.arr items)
  | obj (entries : List (List Char × JValue)) :
      entriesSorted entries → (∀ p ∈ entries, WFJ p.2) → WFJ (.obj entries)

/-! ### The payload classifier against its declarative reading -/

theorem mem_navigateJsonPath : ∀ (path : List (List Char)) (v u : JValue),
    u ∈ navigateJsonPath v path ↔ Resolves v path u := by
  intro path
  induction path with
  | nil =>
    intro v u
    simp only [navigateJsonPath, List.mem_singleton]
    constructor
    · rintro rfl; exact .here _
    · intro h; cases h; rfl
  | cons seg rest ih =>
    intro v u
    by_cases hs : seg = starSeg
    · subst hs
      cases v with
      | arr items =>
        simp only [navigateJsonPath, if_pos, List.mem_flatMap]
        constructor
        · rintro ⟨x, hx, hmem⟩
          exact .star items rest x u hx ((ih x u).mp hmem)
        · intro h
          cases h with
          | field _ _ _ _ _ hne _ _ => exact absurd rfl hne
          | star _ _ x _ hx hres => exact ⟨x, hx, (ih x u).mpr hres⟩
      | null =>
        simp only [navigateJsonPath, if_pos, List.not_mem_nil, false_iff]
        intro h
        cases h with
        | field _ _ _ _ _ hne _ _ => exact absurd rfl hne
      | bool b =>
        simp only [navigateJsonPath, if_pos, List.not_mem_nil, false_iff]
        intro h
        cases h with
        | field _ _ _ _ _ hne _ _ => exact absurd rfl hne
      | num n =>
        simp only [navigateJsonPath, if_pos, List.not_mem_nil, false_iff]
        intro h
        cases h with
        | field _ _ _ _ _ hne _ _ => exact absurd rfl hne
      | str s =>
        simp only [navigateJsonPath, if_pos, List.not_mem_nil, false_iff]
        intro h
        cases h with
        | field _ _ _ _ _ hne _ _ => exact absurd rfl hne
      | obj entries =>
        simp only [navigateJsonPath, if_pos, List.not_mem_nil, false_iff]
        intro h
        cases h with
        | field _ _ _ _ _ hne _ _ => exact absurd rfl hne
    · cases hg : jGet v seg with
      | some w =>
        simp only [navigateJsonPath, if_neg hs, hg]
        constructor
        · intro hmem
          exact .field v seg rest w u hs hg ((ih w u).mp hmem)
        · intro h
          cases h with
          | field _ _ _ w2 _ hne hget hres =>
            rw [hg] at hget
            cases hget
            exact (ih w u).mpr hres
          | star => exact absurd rfl hs
      | none =>
        simp only [navigateJsonPath, if_neg hs, hg, List.not_mem_nil, false_iff]
        intro h
        cases h with
        | field _ _ _ w2 _ hne hget hres => rw [hg] at hget; cases hget
        | star => exact absurd rfl hs

theorem jAsStr_eq_some_iff (u : JValue) (s : List Char) :
    jAsStr u = some s ↔ u = .str s := by
  cases u <;> simp [jAsStr]

theorem navigate_nonempty_iff (v : JValue) (path : List (List Char)) :
    (navigateJsonPath v path).isEmpty = false ↔ ∃ u, Resolves v path u := by
  rw [List.isEmpty_eq_false_iff_exists_mem]
  constructor
  · rintro ⟨u, hu⟩; exact ⟨u, (mem_navigateJsonPath path v u).mp hu⟩
  · rintro ⟨u, hu⟩; exact ⟨u, (mem_navigateJsonPath path v u).mpr hu⟩

theorem isDrPayload_iff (v : JValue) : isDrPayload v = true ↔ IsDrSpec v := by
  unfold isDrPayload IsDrSpec jsonPathExists
  by_cases he : (jGet v "error".data).isSome
  · simp only [if_pos he, true_iff]
    left
    exact Option.isSome_iff_exists.mp he
  · simp only [if_neg he, Bool.not_eq_true']
    rw [navigate_nonempty_iff]
    constructor
    · intro h; exact Or.inr h
    · intro h
      cases h with
      | inl hex => exact absurd (Option.isSome_iff_exists.mpr hex) he
      | inr hex => exact hex

theorem isInboundFlowPayload_iff (v : JValue) :
    isInboundFlowPayload v = true ↔ IsInboundFlowSpec v := by
  unfold isInboundFlowPayload IsInboundFlowSpec jsonPathEquals
  rw [List.any_eq_true]
  constructor
  · rintro ⟨u, hu, hstr⟩
    rw [decide_eq_true_iff, jAsStr_eq_some_iff] at hstr
    exact ⟨u, (mem_navigateJsonPath _ v u).mp hu, hstr⟩
  · rintro ⟨u, hu, hstr⟩
    refine ⟨u, (mem_navigateJsonPath _ v u).mpr hu, ?_⟩
    rw [decide_eq_true_iff, jAsStr_eq_some_iff]
    exact hstr

/-- C5: for every parsed JSON value v, the classifier forwards v if and
only if is_dr(v) or is_inbound_flow(v), where is_dr(v) holds iff v has a
top-level "error" field (any value, including null) or the path
entry[*].changes[*].value.statuses resolves to at least one existing
node, and is_inbound_flow(v) holds iff
data.entry[*].changes[*].value.messages[*].interactive.type resolves to
at least one string equal to "nfm_reply"; missing fields or wrong types
along a path yield no matches. -/
theorem classifier_forwards_iff_dr_or_inbound (body : List Char) (v : JValue)
    (h : jparse body = some v) :
    shouldProcessPayload body = true ↔ IsDrSpec v ∨ IsInboundFlowSpec v := by
  unfold shouldProcessPayload
  rw [h, Bool.or_eq_true, isDrPayload_iff, isInboundFlowPayload_iff]

/-- C5 witness: the classifier theorem at the concrete one-field body
whose "error" field is null. -/
theorem classifier_forwards_iff_dr_or_inbound_witness :
    jparse "\x7b\"error\":null\x7d".data = some (.obj [("error".data, .null)]) ∧
    (shouldProcessPayload "\x7b\"error\":null\x7d".data = true ↔
      IsDrSpec (.obj [("error".data, .null)]) ∨
      IsInboundFlowSpec (.obj [("error".data, .null)])) :=
  ⟨by rfl, classifier_forwards_iff_dr_or_inbound _ _ (by rfl)⟩

/-! ### The forwarder retry loop -/

theorem sendWebhookGo_run (outcome : Nat → Except AppError α) (maxRetries : Nat) :
    ∀ remaining attempt, 1 ≤ attempt → attempt + remaining = maxRetries + 1 →
    1 ≤ remaining →
    ∃ res att, attempt ≤ att ∧ att ≤ maxRetries ∧
      (∀ le sl, sendWebhookGo outcome maxRetries remaining attempt le sl
        = some ⟨res, att, sl + (att - attempt)⟩) ∧
      (∀ i, attempt ≤ i → i < att →
        ∃ e, outcome i = .error e ∧ isAuthenticationError e = false) ∧
      ((∃ r, res = .ok r ∧ outcome att = .ok r) ∨
       (∃ e, res = .error e ∧ outcome att = .error e ∧
         (isAuthenticationError e = true ∨ att = maxRetries))) := by
  intro remaining
  induction remaining with
  | zero => intro attempt h1 h2 h3; omega
  | succ r ih =>
    intro attempt h1 h2 _h3
    match houtcome : outcome attempt with
    | .ok response =>
      refine ⟨.ok response, attempt, le_refl _, by omega, ?_, ?_, ?_⟩
      · intro le sl
        simp [sendWebhookGo, houtcome]
      · intro i hi1 hi2; omega
      · exact Or.inl ⟨response, rfl, houtcome⟩
    | .error e =>
      by_cases hauth : isAuthenticationError e = true
      · refine ⟨.error e, attempt, le_refl _, by omega, ?_, ?_, ?_⟩
        · intro le sl
          simp [sendWebhookGo, houtcome, hauth]
        · intro i hi1 hi2; omega
        · exact Or.inr ⟨e, rfl, houtcome, Or.inl hauth⟩
      · rw [Bool.not_eq_true] at hauth
        by_cases hlt : attempt < maxRetries
        · obtain ⟨res, att, ha1, ha2, hrun, hprior, hfin⟩ :=
            ih (attempt + 1) (by omega) (by omega) (by omega)
          refine ⟨res, att, by omega, ha2, ?_, ?_, hfin⟩
          · intro le sl
            have hstep : sendWebhookGo outcome maxRetries (r + 1) attempt le sl
                = sendWebhookGo outcome maxRetries r (attempt + 1) (some e) (sl + 1) := by
              simp [sendWebhookGo, houtcome, hauth, hlt]
            rw [hstep, hrun]
            have harith : sl + 1 + (att - (attempt + 1)) = sl + (att - attempt) := by omega
            rw [harith]
          · intro i hi1 hi2
            rcases Nat.eq_or_lt_of_le hi1 with heq | hgt
            · exact heq ▸ ⟨e, houtcome, hauth⟩
            · exact hprior i (by omega) hi2
        · have hr0 : r = 0 := by omega
          have hatt : attempt = maxRetries := by omega
          refine ⟨.error e, attempt, le_refl _, by omega, ?_, ?_, ?_⟩
          · intro le sl
            subst hr0
            have hstep : sendWebhookGo outcome maxRetries 1 attempt le sl
                = sendWebhookGo outcome maxRetries 0 (attempt + 1) (some e) sl := by
              simp [sendWebhookGo, houtcome, hauth, hlt]
            rw [hstep]
            simp [sendWebhookGo, hatt]
          · intro i hi1 hi2; omega
          · exact Or.inr ⟨e, rfl, houtcome, Or.inr hatt⟩

theorem sendWebhook_run (outcome : Nat → Except AppError α) (maxRetries : Nat)
    (h : 1 ≤ maxRetries) :
    ∃ fin : SendOutcome α, sendWebhook outcome maxRetries = some fin ∧
      1 ≤ fin.attemptsMade ∧ fin.attemptsMade ≤ maxRetries ∧
      fin.sleeps = fin.attemptsMade - 1 ∧
      (∀ i, 1 ≤ i → i < fin.attemptsMade →
        ∃ e, outcome i = .error e ∧ isAuthenticationError e = false) ∧
      ((∃ r, fin.result = .ok r ∧ outcome fin.attemptsMade = .ok r) ∨
       (∃ e, fin.result = .error e ∧ outcome fin.attemptsMade = .error e ∧
         (isAuthenticationError e = true ∨ fin.attemptsMade = maxRetries))) := by
  obtain ⟨res, att, ha1, ha2, hrun, hprior, hfin⟩ :=
    sendWebhookGo_run outcome maxRetries maxRetries 1 (le_refl _) (by omega) h
  refine ⟨⟨res, att, 0 + (att - 1)⟩, hrun none 0, ha1, ha2, by simp, hprior, hfin⟩

theorem isAuthenticationError_authenticationFailed (m : String) :
    isAuthenticationError (.authenticationFailed m) = true := rfl

theorem isAuthenticationError_hmac (m : String) :
    isAuthenticationError (.hmac m) = true := rfl

/-- C3 counterexample: the claim restricts retries to transport or
timeout errors, but the loop retries a MessageProcessing error (here the
non-2xx business failure of a 404 answer): the run succeeds on attempt 2
after one sleep, although attempt 1 failed with an error that is neither
a transport nor a timeout error. -/
theorem retry_after_non_transport_error :
    sendWebhook (fun i => if i = 1
        then Except.error (AppError.messageProcessing
          "Permata webhook failed: 404 Not Found - no healthy upstream")
        else Except.ok (⟨"00", "OK"⟩ : PermataWebhookResponse)) 3
      = some ⟨.ok ⟨"00", "OK"⟩, 2, 1⟩ ∧
    isTransportError (AppError.messageProcessing
      "Permata webhook failed: 404 Not Found - no healthy upstream") = false ∧
    isAuthenticationError (AppError.messageProcessing
      "Permata webhook failed: 404 Not Found - no healthy upstream") = false :=
  ⟨rfl, rfl, by decide⟩

/-- C3 amended: the retry loop retries an attempt exactly when the
attempt failed with an error not classified as an authentication error
(kind AuthenticationFailed or Hmac, or message containing an
authentication substring) — not only transport or timeout errors; an
attempt failing with AuthenticationFailed or Hmac is returned
immediately without any further attempt; at most max_retries attempts
are made with a retry_delay sleep between consecutive attempts; after
exhaustion the error of the last attempt is returned. -/
theorem send_webhook_retry_policy
    (outcome : Nat → Except AppError PermataWebhookResponse)
    (maxRetries : Nat) (h : 1 ≤ maxRetries) :
    ∃ fin : SendOutcome PermataWebhookResponse,
      sendWebhook outcome maxRetries = some fin ∧
      1 ≤ fin.attemptsMade ∧ fin.attemptsMade ≤ maxRetries ∧
      fin.sleeps = fin.attemptsMade - 1 ∧
      (∀ i, 1 ≤ i → i < fin.attemptsMade →
        ∃ e, outcome i = .error e ∧ isAuthenticationError e = false) ∧
      (∀ i m, 1 ≤ i → i < fin.attemptsMade →
        outcome i ≠ .error (.authenticationFailed m) ∧ outcome i ≠ .error (.hmac m)) ∧
      ((∃ r, fin.result = .ok r ∧ outcome fin.attemptsMade = .ok r) ∨
       (∃ e, fin.result = .error e ∧ outcome fin.attemptsMade = .error e ∧
         (isAuthenticationError e = true ∨ fin.attemptsMade = maxRetries))) := by
  obtain ⟨fin, hrun, h1, h2, hsleep, hprior, hfin⟩ := sendWebhook_run outcome maxRetries h
  refine ⟨fin, hrun, h1, h2, hsleep, hprior, ?_, hfin⟩
  intro i m hi1 hi2
  obtain ⟨e, he, hena⟩ := hprior i hi1 hi2
  constructor
  · intro hcontra
    rw [he] at hcontra
    cases hcontra
    rw [isAuthenticationError_authenticationFailed] at hena
    cases hena
  · intro hcontra
    rw [he] at hcontra
    cases hcontra
    rw [isAuthenticationError_hmac] at hena
    cases hena

/-- C3 witness: the amended retry-policy theorem applied with a single
always-successful attempt and max_retries = 1. -/
theorem send_webhook_retry_policy_witness :
    1 ≤ 1 ∧
    ∃ fin : SendOutcome PermataWebhookResponse,
      sendWebhook (fun _ => Except.ok (⟨"00", "OK"⟩ : PermataWebhookResponse)) 1 = some fin ∧
      1 ≤ fin.attemptsMade ∧ fin.attemptsMade ≤ 1 ∧
      fin.sleeps = fin.attemptsMade - 1 ∧
      (∀ i, 1 ≤ i → i < fin.attemptsMade →
        ∃ e, Except.ok (⟨"00", "OK"⟩ : PermataWebhookResponse) = Except.error e ∧
          isAuthenticationError e = false) ∧
      (∀ i m, 1 ≤ i → i < fin.attemptsMade →
        Except.ok (⟨"00", "OK"⟩ : PermataWebhookResponse)
            ≠ Except.error (AppError.authenticationFailed m) ∧
        Except.ok (⟨"00", "OK"⟩ : PermataWebhookResponse)
            ≠ Except.error (AppError.hmac m)) ∧
      ((∃ r, fin.result = Except.ok r ∧
          (Except.ok (⟨"00", "OK"⟩ : PermataWebhookResponse) : Except AppError _) = Except.ok r) ∨
       (∃ e, fin.result = Except.error e ∧
          (Except.ok (⟨"00", "OK"⟩ : PermataWebhookResponse) : Except AppError _) = Except.error e ∧
         (isAuthenticationError e = true ∨ fin.attemptsMade = 1))) :=
  ⟨by decide,
    send_webhook_retry_policy
      (fun _ => Except.ok (⟨"00", "OK"⟩ : PermataWebhookResponse)) 1 (by decide)⟩

/-! ### Ingress acknowledgement, correlation ids, token cache, scheduler -/

/-- C2: a POST body that parses as JSON but is neither a DR nor an
Inbound Flow payload is answered 200 with exactly
\x7b"StatusCode":"00","StatusDesc":"Success"\x7d, and no outbound bank call is
made: the processor (and with it login and forward) is never invoked,
whatever its would-be outcome. -/
theorem ignored_payload_acked_without_forward (body : List Char) (v : JValue)
    (hparse : jparse body = some v)
    (hdr : isDrPayload v = false) (hifl : isInboundFlowPayload v = false) :
    ∀ processorResult,
      processWebhookIngress body processorResult = (⟨200, successAckBody⟩, false) := by
  intro processorResult
  unfold processWebhookIngress shouldProcessPayload
  rw [hparse]
  simp [hdr, hifl]

/-- C2 witness: the ignore theorem at the concrete body
\x7b"hello":"world"\x7d and an arbitrary concrete processor outcome. -/
theorem ignored_payload_acked_without_forward_witness :
    jparse "\x7b\"hello\":\"world\"\x7d".data
      = some (.obj [("hello".data, .str "world".data)]) ∧
    isDrPayload (.obj [("hello".data, .str "world".data)]) = false ∧
    isInboundFlowPayload (.obj [("hello".data, .str "world".data)]) = false ∧
    processWebhookIngress "\x7b\"hello\":\"world\"\x7d".data
        (.error (.generic "down")) = (⟨200, successAckBody⟩, false) :=
  ⟨by rfl, by rfl, by rfl,
    ignored_payload_acked_without_forward _ _ (by rfl) (by rfl) (by rfl)
      (.error (.generic "down"))⟩

/-- C6 counterexample: for the body \x7b"xid":"abc"\x7d,
extract_request_id returns "req-abc" (whatever fresh UUID it would have
drawn), while handle_webhook uses "req-" + a fresh UUIDv4 — here the
concrete draw 123e4567-e89b-42d3-a456-426614174000 — so the correlation
id used for processing differs from extract_request_id(body). -/
theorem correlation_id_ignores_xid :
    extractRequestId "\x7b\"xid\":\"abc\"\x7d".data
        "123e4567-e89b-42d3-a456-426614174000".data = "req-abc".data ∧
    handlerRequestId "123e4567-e89b-42d3-a456-426614174000".data ≠ "req-abc".data :=
  ⟨rfl, by decide⟩

/-- C6 amended: the correlation id used for processing and logging is
"req-" + a freshly generated UUIDv4, generated before the body is read
and independent of the body; extract_request_id implements the spec's
xid/id fallback but is never invoked by the server, so for a body with
a non-empty string xid the two disagree for every possible 36-character
UUID draw. -/
theorem correlation_id_is_fresh_uuid (freshUuid : List Char)
    (hlen : freshUuid.length = 36) :
    handlerRequestId freshUuid = "req-".data ++ freshUuid ∧
    extractRequestId "\x7b\"xid\":\"abc\"\x7d".data freshUuid = "req-abc".data ∧
    handlerRequestId freshUuid
      ≠ extractRequestId "\x7b\"xid\":\"abc\"\x7d".data freshUuid := by
  refine ⟨rfl, rfl, ?_⟩
  intro heq
  have hfixed : extractRequestId "\x7b\"xid\":\"abc\"\x7d".data freshUuid
      = "req-abc".data := rfl
  rw [hfixed, handlerRequestId] at heq
  have hlen2 := congrArg List.length heq
  rw [List.length_append] at hlen2
  have h4 : ("req-".data).length = 4 := by decide
  have h7 : ("req-abc".data).length = 7 := by decide
  rw [h4, hlen, h7] at hlen2
  exact absurd hlen2 (by decide)

/-- C6 amended witness: the amended correlation-id theorem at a concrete
36-character UUID draw. -/
theorem correlation_id_is_fresh_uuid_witness :
    ("123e4567-e89b-42d3-a456-426614174000".data.length = 36) ∧
    (handlerRequestId "123e4567-e89b-42d3-a456-426614174000".data
      = "req-".data ++ "123e4567-e89b-42d3-a456-426614174000".data ∧
    extractRequestId "\x7b\"xid\":\"abc\"\x7d".data
        "123e4567-e89b-42d3-a456-426614174000".data = "req-abc".data ∧
    handlerRequestId "123e4567-e89b-42d3-a456-426614174000".data
      ≠ extractRequestId "\x7b\"xid\":\"abc\"\x7d".data
          "123e4567-e89b-42d3-a456-426614174000".data) :=
  ⟨by decide, correlation_id_is_fresh_uuid _ (by decide)⟩

/-- C8 counterexample: from a state whose periodic refresher is running,
clear_cache() leaves the refresher stopped (the abort in
clear_cache_with_context), refuting that it is still running afterwards
and that only shutdown() terminates it. -/
theorem clear_cache_stops_scheduler :
    (clearCacheWithContext ⟨some ⟨"tok", 900⟩, true⟩).schedulerActive = false ∧
    (clearCacheWithContext ⟨some ⟨"tok", 900⟩, true⟩).tokenCache = none :=
  ⟨rfl, rfl⟩

/-- C8 amended: clear_cache() both evicts the cached token and stops the
periodic refresher (the source comments the stop as deliberate); the
refresher is likewise stopped by shutdown() and stop_scheduler(), and
replaced by start_scheduler; after clear_cache the next get_token
performs a login round. -/
theorem clear_cache_evicts_and_stops (s : LoginHandlerState) (now : Nat)
    (loginResult : Except AppError TokenResponse) :
    clearCacheWithContext s = ⟨none, false⟩ ∧
    (getTokenWithContext (clearCacheWithContext s).tokenCache now loginResult).didLogin
      = true ∧
    shutdownHandler s = ⟨s.tokenCache, false⟩ ∧
    startScheduler (clearCacheWithContext s) = ⟨none, true⟩ := by
  refine ⟨rfl, ?_, rfl, rfl⟩
  cases loginResult <;> rfl

/-- C4: after every successful login, the cached expiry is the
acquisition instant plus expires_in.saturating_sub(300): over the
integers, expiry − now = max(expires_in − 300, 0); and when
expires_in ≤ 300 the stored entry is already expired, so any later
get_token (monotonic clock: now2 ≥ now) takes the login path again. -/
theorem token_expiry_saturating_margin (cache : Option CachedToken) (now : Nat)
    (tr : TokenResponse)
    (hmiss : ∀ ct, cache = some ct → ¬ now < ct.expiresAt) :
    getTokenWithContext cache now (.ok tr)
      = ⟨.ok tr.access_token, some ⟨tr.access_token, now + (tr.expires_in - 300)⟩, true⟩ ∧
    ((now + (tr.expires_in - 300) : Nat) : Int)
      = (now : Int) + max ((tr.expires_in : Int) - 300) 0 ∧
    (tr.expires_in ≤ 300 → ∀ now2, now ≤ now2 → ∀ loginResult2,
      (getTokenWithContext (some ⟨tr.access_token, now + (tr.expires_in - 300)⟩)
        now2 loginResult2).didLogin = true) := by
  refine ⟨?_, by omega, ?_⟩
  · cases cache with
    | none => rfl
    | some ct =>
      have hle := hmiss ct rfl
      unfold getTokenWithContext
      simp only [gt_iff_lt, if_neg hle]
      rfl
  · intro hsmall now2 hmono loginResult2
    have hexp : now + (tr.expires_in - 300) = now := by omega
    rw [hexp]
    unfold getTokenWithContext
    have hnot : ¬ now2 < now := by omega
    simp only [gt_iff_lt, if_neg hnot]
    cases loginResult2 <;> rfl

/-- C4 witness: the expiry theorem at an empty cache, now = 7 and a
login answering expires_in = 100 ≤ 300. -/
theorem token_expiry_saturating_margin_witness :
    (∀ ct, (none : Option CachedToken) = some ct → ¬ 7 < ct.expiresAt) ∧
    (getTokenWithContext none 7 (.ok ⟨"tok", "Bearer", 100, "api"⟩)
      = ⟨.ok "tok", some ⟨"tok", 7 + (100 - 300)⟩, true⟩ ∧
    ((7 + (100 - 300) : Nat) : Int) = (7 : Int) + max ((100 : Int) - 300) 0 ∧
    (100 ≤ 300 → ∀ now2, 7 ≤ now2 → ∀ loginResult2,
      (getTokenWithContext (some ⟨"tok", 7 + (100 - 300)⟩) now2 loginResult2).didLogin
        = true)) :=
  by
  constructor
  · intro ct h
    cases h
  · exact token_expiry_saturating_margin none 7 ⟨"tok", "Bearer", 100, "api"⟩
      (fun ct h => by cases h)

/-! ### Bank responses through the client and the ingress -/

/-- C10: when the bank answers a forward attempt with a 2xx status, the
client decodes the body as \x7bStatusCode, StatusDesc\x7d and returns a
MessageProcessing error whenever the decoded StatusCode differs from
"00", even though the HTTP exchange succeeded; only a 2xx answer whose
body decodes with StatusCode "00" is returned as success. -/
theorem bank_statuscode_checked (env : Nat → AttemptEnv)
    (webhookBody compacted : List Char) (tok : String) (S : Nat) (B : String)
    (sc sd : String)
    (htok : (env 0).tokenResult = .ok tok)
    (hcompact : compactJson webhookBody = some compacted)
    (hsend : (env 0).sendResult = .ok (S, B))
    (hlow : 200 ≤ S) (hhigh : S ≤ 299)
    (hparsed : (env 0).parsedBody = some ⟨sc, sd⟩) :
    (sc ≠ "00" → makeWebhookRequest env webhookBody
      = .error (.messageProcessing ("Permata Bank error: " ++ sc ++ " - " ++ sd))) ∧
    (sc = "00" → makeWebhookRequest env webhookBody = .ok ⟨sc, sd⟩) := by
  have h403 : ¬ S = 403 := by omega
  constructor <;> intro hsc <;>
    simp [makeWebhookRequest, makeWebhookRequestIter, htok, hcompact, hsend,
      hparsed, h403, hlow, hhigh, hsc]

/-- C10 witness: the StatusCode theorem at a concrete 200 answer whose
body decodes to StatusCode "05". -/
theorem bank_statuscode_checked_witness :
    ((fun _ => (⟨.ok "tok", .ok (200, "resp"), some ⟨"05", "Rejected"⟩, "decode"⟩ :
        AttemptEnv)) 0).tokenResult = .ok "tok" ∧
    compactJson "\x7b\"error\":null\x7d".data = some "\x7b\"error\":null\x7d".data ∧
    ((fun _ => (⟨.ok "tok", .ok (200, "resp"), some ⟨"05", "Rejected"⟩, "decode"⟩ :
        AttemptEnv)) 0).sendResult = .ok (200, "resp") ∧
    (200 ≤ 200 ∧ 200 ≤ 299) ∧
    ((fun _ => (⟨.ok "tok", .ok (200, "resp"), some ⟨"05", "Rejected"⟩, "decode"⟩ :
        AttemptEnv)) 0).parsedBody = some ⟨"05", "Rejected"⟩ ∧
    (("05" : String) ≠ "00" →
      makeWebhookRequest
        (fun _ => (⟨.ok "tok", .ok (200, "resp"), some ⟨"05", "Rejected"⟩, "decode"⟩ :
          AttemptEnv)) "\x7b\"error\":null\x7d".data
      = .error (.messageProcessing ("Permata Bank error: " ++ "05" ++ " - " ++ "Rejected"))) ∧
    (("05" : String) = "00" →
      makeWebhookRequest
        (fun _ => (⟨.ok "tok", .ok (200, "resp"), some ⟨"05", "Rejected"⟩, "decode"⟩ :
          AttemptEnv)) "\x7b\"error\":null\x7d".data = .ok ⟨"05", "Rejected"⟩) := by
  refine ⟨rfl, by rfl, rfl, by decide, rfl, ?_⟩
  exact bank_statuscode_checked _ _ "\x7b\"error\":null\x7d".data "tok" 200 "resp"
    "05" "Rejected" rfl (by rfl) rfl (by decide) (by decide) rfl

/-- C7: a forwarder error classified as an authentication failure (kind
AuthenticationFailed or Hmac, or message containing one of the
authentication substrings) is answered 401 with
\x7b"error":"Authentication failed","message":msg\x7d; every other forwarder
error is answered 500 with \x7b"StatusCode":"06","StatusDesc":err\x7d.  The
401 mapping lives in the processor modelled from the spec
(processorMapResult); the 500 arm is the ingress error arm of
src/handlers/webhook_server.rs 227-241. -/
theorem forwarder_error_http_mapping (body : List Char) (e : AppError)
    (hproc : shouldProcessPayload body = true) :
    (isAuthenticationError e = true →
      processWebhookIngress body (processorMapResult (.error e))
        = (⟨401, authFailedBody (errorMessage e)⟩, true)) ∧
    (isAuthenticationError e = false →
      processWebhookIngress body (processorMapResult (.error e))
        = (⟨500, statusCode06Body (errorMessage e)⟩, true)) := by
  constructor <;> intro hauth <;>
    simp [processWebhookIngress, processorMapResult, hproc, hauth,
      statusCodeFromU16Or502]

/-- C7 witness: the error-mapping theorem at the DR body with the
"error" field and a concrete AuthenticationFailed error. -/
theorem forwarder_error_http_mapping_witness :
    shouldProcessPayload "\x7b\"error\":null\x7d".data = true ∧
    ((isAuthenticationError (.authenticationFailed "Login failed: 401 - denied") = true →
      processWebhookIngress "\x7b\"error\":null\x7d".data
          (processorMapResult (.error (.authenticationFailed "Login failed: 401 - denied")))
        = (⟨401, authFailedBody
            (errorMessage (.authenticationFailed "Login failed: 401 - denied"))⟩, true)) ∧
    (isAuthenticationError (.authenticationFailed "Login failed: 401 - denied") = false →
      processWebhookIngress "\x7b\"error\":null\x7d".data
          (processorMapResult (.error (.authenticationFailed "Login failed: 401 - denied")))
        = (⟨500, statusCode06Body
            (errorMessage (.authenticationFailed "Login failed: 401 - denied"))⟩, true))) :=
  ⟨by rfl, forwarder_error_http_mapping _ _ (by rfl)⟩

/-- C1: for a classified payload, when the bank answers a forward
attempt with status S and body B, the verbatim-proxy forward (modelled
from the spec) returns \x7bS, B\x7d — also for non-2xx S — the retry loop
accepts it on the first attempt with no retry and no sleep, and the
ingress responds with status S (coerced to 502 exactly when S is not a
valid status code, i.e. outside 100..=999) and body B. -/
theorem transparent_proxy_verbatim (body : List Char) (tok : String)
    (compacted : List Char) (S : Nat) (B : String) (maxRetries : Nat)
    (hproc : shouldProcessPayload body = true) (hmax : 1 ≤ maxRetries) :
    specForwardAttempt (.ok tok) (some compacted) (.ok (S, B)) = .ok ⟨S, B⟩ ∧
    sendWebhook (fun _ => specForwardAttempt (.ok tok) (some compacted) (.ok (S, B)))
        maxRetries = some ⟨.ok ⟨S, B⟩, 1, 0⟩ ∧
    processWebhookIngress body (processorMapResult (.ok ⟨S, B⟩))
      = (⟨statusCodeFromU16Or502 S, B⟩, true) ∧
    (100 ≤ S → S < 1000 → statusCodeFromU16Or502 S = S) ∧
    (¬ (100 ≤ S ∧ S < 1000) → statusCodeFromU16Or502 S = 502) := by
  obtain ⟨r, rfl⟩ : ∃ r, maxRetries = r + 1 := ⟨maxRetries - 1, by omega⟩
  refine ⟨rfl, rfl, ?_, ?_, ?_⟩
  · simp [processWebhookIngress, processorMapResult, hproc]
  · intro h1 h2
    simp [statusCodeFromU16Or502, h1, h2]
  · intro hinvalid
    simp [statusCodeFromU16Or502, hinvalid]

/-- C1 witness: the transparent-proxy theorem at the DR body with the
"error" field, a non-2xx bank answer 404 "Upstream down" and
max_retries = 3. -/
theorem transparent_proxy_verbatim_witness :
    shouldProcessPayload "\x7b\"error\":null\x7d".data = true ∧ 1 ≤ 3 ∧
    (specForwardAttempt (.ok "tok") (some "\x7b\"error\":null\x7d".data)
        (.ok (404, "Upstream down")) = .ok ⟨404, "Upstream down"⟩ ∧
    sendWebhook (fun _ => specForwardAttempt (.ok "tok")
        (some "\x7b\"error\":null\x7d".data) (.ok (404, "Upstream down"))) 3
      = some ⟨.ok ⟨404, "Upstream down"⟩, 1, 0⟩ ∧
    processWebhookIngress "\x7b\"error\":null\x7d".data
        (processorMapResult (.ok ⟨404, "Upstream down"⟩))
      = (⟨statusCodeFromU16Or502 404, "Upstream down"⟩, true) ∧
    (100 ≤ 404 → 404 < 1000 → statusCodeFromU16Or502 404 = 404) ∧
    (¬ (100 ≤ 404 ∧ 404 < 1000) → statusCodeFromU16Or502 404 = 502)) :=
  ⟨by rfl, by decide,
    transparent_proxy_verbatim "\x7b\"error\":null\x7d".data "tok"
      "\x7b\"error\":null\x7d".data 404 "Upstream down" 3 (by rfl) (by decide)⟩

/-! ### The serde_json model: order and insertion lemmas -/

theorem keyLt_irrefl : ∀ k, keyLt k k = false := by
  intro k
  induction k with
  | nil => rfl
  | cons c t ih => simp [keyLt, ih]

theorem keyLt_trans : ∀ a b c, keyLt a b = true → keyLt b c = true → keyLt a c = true := by
  intro a
  induction a with
  | nil =>
    intro b c hab hbc
    cases b with
    | nil => cases hab
    | cons b0 bt =>
      cases c with
      | nil => cases hbc
      | cons c0 ct => rfl
  | cons a0 at' ih =>
    intro b c hab hbc
    cases b with
    | nil => cases hab
    | cons b0 bt =>
      cases c with
      | nil => cases hbc
      | cons c0 ct =>
        simp only [keyLt] at hab hbc ⊢
        by_cases h1 : a0.toNat < b0.toNat <;> by_cases h2 : b0.toNat < c0.toNat
        · simp [show a0.toNat < c0.toNat by omega]
        · simp only [if_pos h1] at hab
          simp only [if_neg h2] at hbc
          by_cases h3 : c0.toNat < b0.toNat
          · simp [h3] at hbc
          · have : b0.toNat = c0.toNat := by omega
            simp [show a0.toNat < c0.toNat by omega]
        · simp only [if_neg h1] at hab
          by_cases h3 : b0.toNat < a0.toNat
          · simp [h3] at hab
          · have : a0.toNat = b0.toNat := by omega
            simp [show a0.toNat < c0.toNat by omega]
        · simp only [if_neg h1] at hab
          simp only [if_neg h2] at hbc
          by_cases h3 : b0.toNat < a0.toNat
          · simp [h3] at hab
          · by_cases h4 : c0.toNat < b0.toNat
            · simp [h4] at hbc
            · simp only [if_neg h3] at hab
              simp only [if_neg h4] at hbc
              have hac : ¬ a0.toNat < c0.toNat := by omega
              have hca : ¬ c0.toNat < a0.toNat := by omega
              simp only [if_neg hac, if_neg hca]
              exact ih bt ct hab hbc

theorem keyLt_connex : ∀ a b, keyLt a b = false → keyLt b a = false → a = b := by
  intro a
  induction a with
  | nil =>
    intro b hab _hba
    cases b with
    | nil => rfl
    | cons b0 bt => cases hab
  | cons a0 at' ih =>
    intro b hab hba
    cases b with
    | nil => cases hba
    | cons b0 bt =>
      simp only [keyLt] at hab hba
      by_cases h1 : a0.toNat < b0.toNat
      · simp [h1] at hab
      · by_cases h2 : b0.toNat < a0.toNat
        · simp [h2] at hba
        · have hnat : a0.toNat = b0.toNat := by omega
          have he : a0 = b0 := Char.eq_of_val_eq (UInt32.ext hnat)
          simp only [if_neg h1, if_neg h2] at hab hba
          rw [he, ih bt hab hba]

theorem mem_mapInsert (k : List Char) (v : JValue) :
    ∀ m p, p ∈ mapInsert k v m → p = (k, v) ∨ p ∈ m := by
  intro m
  induction m with
  | nil =>
    intro p hp
    simp [mapInsert] at hp
    exact Or.inl hp
  | cons q rest ih =>
    intro p hp
    obtain ⟨k0, v0⟩ := q
    simp only [mapInsert] at hp
    by_cases h1 : keyLt k k0 = true
    · simp only [if_pos h1, List.mem_cons] at hp
      rcases hp with h | h | h
      · exact Or.inl h
      · exact Or.inr (by simp [h])
      · exact Or.inr (by simp [h])
    · simp only [if_neg h1] at hp
      by_cases h2 : keyLt k0 k = true
      · simp only [if_pos h2, List.mem_cons] at hp
        rcases hp with h | h
        · exact Or.inr (by simp [h])
        · rcases ih p h with h3 | h3
          · exact Or.inl h3
          · exact Or.inr (by simp [h3])
      · simp only [if_neg h2, List.mem_cons] at hp
        rcases hp with h | h
        · exact Or.inl h
        · exact Or.inr (by simp [h])

theorem mapInsert_sorted (k : List Char) (v : JValue) :
    ∀ m, entriesSorted m → entriesSorted (mapInsert k v m) := by
  intro m
  induction m with
  | nil =>
    intro _
    simp [mapInsert, entriesSorted]
  | cons q rest ih =>
    intro hs
    obtain ⟨k0, v0⟩ := q
    rw [entriesSorted, List.pairwise_cons] at hs
    obtain ⟨hall, hrest⟩ := hs
    simp only [mapInsert]
    by_cases h1 : keyLt k k0 = true
    · simp only [if_pos h1]
      rw [entriesSorted, List.pairwise_cons]
      refine ⟨?_, ?_⟩
      · intro p hp
        rcases List.mem_cons.mp hp with h | h
        · rw [h]; exact h1
        · exact keyLt_trans _ _ _ h1 (hall p h)
      · rw [List.pairwise_cons]
        exact ⟨hall, hrest⟩
    · simp only [if_neg h1]
      by_cases h2 : keyLt k0 k = true
      · simp only [if_pos h2]
        rw [entriesSorted, List.pairwise_cons]
        refine ⟨?_, ih hrest⟩
        intro p hp
        rcases mem_mapInsert k v rest p hp with h | h
        · rw [h]; exact h2
        · exact hall p h
      · simp only [if_neg h2]
        have hk : k = k0 :=
          keyLt_connex k k0 (Bool.not_eq_true _ ▸ h1) (Bool.not_eq_true _ ▸ h2)
        rw [entriesSorted, List.pairwise_cons]
        refine ⟨?_, hrest⟩
        intro p hp
        rw [hk]
        exact hall p hp

theorem mapInsert_wf (k : List Char) (v : JValue) (hv : WFJ v) :
    ∀ m, (∀ p ∈ m, WFJ p.2) → ∀ p ∈ mapInsert k v m, WFJ p.2 := by
  intro m hm p hp
  rcases mem_mapInsert k v m p hp with h | h
  · rw [h]; exact hv
  · exact hm p h

theorem mapInsert_append (k : List Char) (v : JValue) :
    ∀ m, (∀ p ∈ m, keyLt p.1 k = true) → mapInsert k v m = m ++ [(k, v)] := by
  intro m
  induction m with
  | nil => intro _; rfl
  | cons q rest ih =>
    intro hall
    obtain ⟨k0, v0⟩ := q
    have h0 : keyLt k0 k = true := hall (k0, v0) (by simp)
    have h1 : keyLt k k0 = false := by
      by_contra hc
      rw [Bool.not_eq_false] at hc
      have := keyLt_trans _ _ _ hc h0
      rw [keyLt_irrefl] at this
      cases this
    simp only [mapInsert, h1, h0, if_pos, if_neg, Bool.false_eq_true, if_false]
    rw [ih (fun p hp => hall p (by simp [hp]))]
    simp

theorem parse_wf_all : ∀ fuel,
    (∀ cs v r, parseJValue fuel cs = some (v, r) → WFJ v) ∧
    (∀ cs vs r, parseItems fuel cs = some (vs, r) → ∀ x ∈ vs, WFJ x) ∧
    (∀ acc cs out r, entriesSorted acc → (∀ p ∈ acc, WFJ p.2) →
      parseEntries fuel acc cs = some (out, r) →
      entriesSorted out ∧ ∀ p ∈ out, WFJ p.2) := by
  intro fuel
  induction fuel with
  | zero =>
    refine ⟨?_, ?_, ?_⟩
    · intro cs v r h; cases h
    · intro cs vs r h; cases h
    · intro acc cs out r _ _ h; cases h
  | succ fuel ih =>
    obtain ⟨ihv, ihi, ihe⟩ := ih
    refine ⟨?_, ?_, ?_⟩
    · intro cs v r h
      simp only [parseJValue] at h
      split at h
      · cases h; exact .null
      · cases h; exact .bool true
      · cases h; exact .bool false
      · rw [Option.map_eq_some'] at h
        obtain ⟨a, _hps, hinj⟩ := h
        cases hinj
        exact .str a.1
      · rw [Option.map_eq_some'] at h
        obtain ⟨a, _hpn, hinj⟩ := h
        cases hinj
        exact .num _
      · split at h
        · cases h
          exact .arr [] (by intro x hx; cases hx)
        · rw [Option.map_eq_some'] at h
          obtain ⟨a, hpi, hinj⟩ := h
          cases hinj
          exact .arr a.1 (ihi _ a.1 a.2 hpi)
      · split at h
        · cases h
          exact .obj [] (by rw [entriesSorted]; exact List.Pairwise.nil)
            (by intro p hp; cases hp)
        · rw [Option.map_eq_some'] at h
          obtain ⟨a, hpe, hinj⟩ := h
          cases hinj
          obtain ⟨hsorted, hwf⟩ := ihe [] _ a.1 a.2
            (by rw [entriesSorted]; exact List.Pairwise.nil)
            (by intro q hq; cases hq) hpe
          exact .obj a.1 hsorted hwf
      · split at h
        · rw [Option.map_eq_some'] at h
          obtain ⟨a, _hpn, hinj⟩ := h
          cases hinj
          exact .num _
        · cases h
      · cases h
    · intro cs vs r h
      simp only [parseItems] at h
      cases hpv : parseJValue fuel cs with
      | none => rw [hpv] at h; dsimp only at h; cases h
      | some p =>
        obtain ⟨v0, r0⟩ := p
        rw [hpv] at h
        dsimp only at h
        split at h
        · rw [Option.map_eq_some'] at h
          obtain ⟨a, hpi, hinj⟩ := h
          cases hinj
          intro x hx
          rcases List.mem_cons.mp hx with hx1 | hx1
          · rw [hx1]; exact ihv cs v0 r0 hpv
          · exact ihi _ a.1 a.2 hpi x hx1
        · cases h
          intro x hx
          rcases List.mem_cons.mp hx with hx1 | hx1
          · rw [hx1]; exact ihv cs v0 r0 hpv
          · cases hx1
        · cases h
    · intro acc cs out r hsorted hwf h
      simp only [parseEntries] at h
      split at h
      · rename_i r0 heq0
        cases hps : parseJString r0 with
        | none => rw [hps] at h; dsimp only at h; cases h
        | some pk =>
          obtain ⟨key, r1⟩ := pk
          rw [hps] at h
          dsimp only at h
          split at h
          · rename_i r2 heq2
            cases hpv : parseJValue fuel r2 with
            | none => rw [hpv] at h; dsimp only at h; cases h
            | some pv =>
              obtain ⟨v0, r3⟩ := pv
              rw [hpv] at h
              dsimp only at h
              have hv : WFJ v0 := ihv r2 v0 r3 hpv
              split at h
              · exact ihe _ _ out r (mapInsert_sorted key v0 acc hsorted)
                  (mapInsert_wf key v0 hv acc hwf) h
              · cases h
                exact ⟨mapInsert_sorted key v0 acc hsorted,
                  mapInsert_wf key v0 hv acc hwf⟩
              · cases h
          · cases h
      · cases h

/-! ### Decimal rendering inverts through the number parser -/

theorem digitChar_val (k : Nat) (h : k < 10) :
    (Char.ofNat (48 + k)).toNat = 48 + k ∧ isDigitChar (Char.ofNat (48 + k)) = true := by
  interval_cases k <;> exact ⟨by decide, by decide⟩

theorem natChars_digits (n : Nat) : ∀ c ∈ natChars n, isDigitChar c = true := by
  induction n using Nat.strong_induction_on with
  | _ n ih =>
    intro c hc
    rw [natChars] at hc
    by_cases h : n < 10
    · rw [if_pos h] at hc
      rcases List.mem_singleton.mp hc with rfl
      exact (digitChar_val n h).2
    · rw [if_neg h] at hc
      rcases List.mem_append.mp hc with h1 | h1
      · exact ih (n / 10) (Nat.div_lt_self (by omega) (by omega)) c h1
      · rcases List.mem_singleton.mp h1 with rfl
        exact (digitChar_val (n % 10) (Nat.mod_lt _ (by omega))).2

theorem natChars_ne_nil (n : Nat) : natChars n ≠ [] := by
  rw [natChars]
  by_cases h : n < 10
  · simp [h]
  · simp [h, natChars_ne_nil (n / 10)]
termination_by n
decreasing_by exact Nat.div_lt_self (by omega) (by omega)

theorem natChars_head_zero (n : Nat) :
    ∀ d ds, natChars n = d :: ds → d = '0' → n = 0 ∧ ds = [] := by
  induction n using Nat.strong_induction_on with
  | _ n ih =>
    intro d ds hsh hz
    rw [natChars] at hsh
    by_cases h : n < 10
    · rw [if_pos h] at hsh
      cases hsh
      have hval := (digitChar_val n h).1
      have hz2 := congrArg Char.toNat hz
      rw [hval] at hz2
      have hzv : ('0' : Char).toNat = 48 := by decide
      rw [hzv] at hz2
      exact ⟨by omega, rfl⟩
    · rw [if_neg h] at hsh
      exfalso
      obtain ⟨d1, ds1, hsh1⟩ := List.exists_cons_of_ne_nil (natChars_ne_nil (n / 10))
      rw [hsh1, List.cons_append] at hsh
      cases hsh
      have hrec := ih (n / 10) (Nat.div_lt_self (by omega) (by omega)) d ds1 hsh1 hz
      exact absurd hrec.1 (by omega)

theorem digitsNat_append_one (ds : List Char) (c : Char) :
    digitsNat (ds ++ [c]) = digitsNat ds * 10 + (c.toNat - 48) := by
  rw [digitsNat, digitsNat, List.foldl_append]
  rfl

theorem digitsNat_natChars (n : Nat) : digitsNat (natChars n) = n := by
  induction n using Nat.strong_induction_on with
  | _ n ih =>
    rw [natChars]
    by_cases h : n < 10
    · rw [if_pos h]
      have hval := (digitChar_val n h).1
      rw [digitsNat]
      simp only [List.foldl_cons, List.foldl_nil, hval]
      omega
    · rw [if_neg h]
      rw [digitsNat_append_one, ih (n / 10) (Nat.div_lt_self (by omega) (by omega))]
      have hval := (digitChar_val (n % 10) (Nat.mod_lt _ (by omega))).1
      omega

theorem digitSpan_of_digits (ds : List Char) (hds : ∀ c ∈ ds, isDigitChar c = true) :
    ∀ rest, (∀ c t, rest = c :: t → isDigitChar c = false) →
    digitSpan (ds ++ rest) = (ds, rest) := by
  induction ds with
  | nil =>
    intro rest hrest
    cases rest with
    | nil => rfl
    | cons c t =>
      rw [List.nil_append, digitSpan, if_neg (by rw [hrest c t rfl]; exact Bool.false_ne_true)]
  | cons d dt ih =>
    intro rest hrest
    rw [List.cons_append, digitSpan, if_pos (hds d (by simp)),
      ih (fun c hc => hds c (by simp [hc])) rest hrest]

theorem parseNatNum_natChars (n : Nat) (rest : List Char)
    (hrest : ∀ c t, rest = c :: t → isDigitChar c = false) :
    parseNatNum (natChars n ++ rest) = some (n, rest) := by
  obtain ⟨d, ds, hsh⟩ := List.exists_cons_of_ne_nil (natChars_ne_nil n)
  rw [parseNatNum]
  rw [digitSpan_of_digits (natChars n) (natChars_digits n) rest hrest]
  rw [hsh]
  dsimp only
  by_cases hz : d = '0'
  · obtain ⟨hn0, hds⟩ := natChars_head_zero n d ds hsh hz
    rw [hds]
    simp only [List.isEmpty_nil, Bool.not_true, Bool.and_false, Bool.false_eq_true, if_false]
    rw [← hds, ← hsh, digitsNat_natChars]
  · rw [if_neg (by simp [hz])]
    rw [← hsh, digitsNat_natChars]

/-! ### String escaping inverts through the string parser -/

theorem hexNibble_hexDigitChar (k : Nat) (h : k < 16) :
    hexNibble (hexDigitChar k) = some k := by
  interval_cases k <;> decide

theorem parseJString_escape (c : Char) (t : List Char) :
    parseJString (escapeChar c ++ t)
      = (parseJString t).map (fun p => (c :: p.1, p.2)) := by
  by_cases h1 : c = '"'
  · subst h1; simp [escapeChar, parseJString, shortEscape]
  by_cases h2 : c = '\\'
  · subst h2; simp [escapeChar, parseJString, shortEscape]
  by_cases h3 : c.toNat = 8
  · have hc : c = Char.ofNat 8 := by rw [← h3, Char.ofNat_toNat]
    rw [escapeChar, if_neg h1, if_neg h2, if_pos h3]
    simp only [List.cons_append, List.nil_append]
    simp [parseJString, shortEscape]
    rw [← hc]
  by_cases h4 : c.toNat = 9
  · have hc : c = Char.ofNat 9 := by rw [← h4, Char.ofNat_toNat]
    rw [escapeChar, if_neg h1, if_neg h2, if_neg h3, if_pos h4]
    simp only [List.cons_append, List.nil_append]
    simp [parseJString, shortEscape]
    rw [← hc]
  by_cases h5 : c.toNat = 10
  · have hc : c = Char.ofNat 10 := by rw [← h5, Char.ofNat_toNat]
    rw [escapeChar, if_neg h1, if_neg h2, if_neg h3, if_neg h4, if_pos h5]
    simp only [List.cons_append, List.nil_append]
    simp [parseJString, shortEscape]
    rw [← hc]
  by_cases h6 : c.toNat = 12
  · have hc : c = Char.ofNat 12 := by rw [← h6, Char.ofNat_toNat]
    rw [escapeChar, if_neg h1, if_neg h2, if_neg h3, if_neg h4, if_neg h5, if_pos h6]
    simp only [List.cons_append, List.nil_append]
    simp [parseJString, shortEscape]
    rw [← hc]
  by_cases h7 : c.toNat = 13
  · have hc : c = Char.ofNat 13 := by rw [← h7, Char.ofNat_toNat]
    rw [escapeChar, if_neg h1, if_neg h2, if_neg h3, if_neg h4, if_neg h5, if_neg h6,
      if_pos h7]
    simp only [List.cons_append, List.nil_append]
    simp [parseJString, shortEscape]
    rw [← hc]
  by_cases h8 : c.toNat < 32
  · rw [escapeChar, if_neg h1, if_neg h2, if_neg h3, if_neg h4, if_neg h5, if_neg h6,
      if_neg h7, if_pos h8]
    rw [List.cons_append, List.cons_append, List.cons_append, List.cons_append,
      List.cons_append, List.cons_append, List.nil_append]
    rw [parseJString]
    rw [hexQuad, hexNibble_hexDigitChar (c.toNat / 16) (by omega),
      hexNibble_hexDigitChar (c.toNat % 16) (by omega)]
    have hn0 : hexNibble '0' = some 0 := by decide
    rw [hn0]
    dsimp only
    have harith : ((0 * 16 + 0) * 16 + c.toNat / 16) * 16 + c.toNat % 16 = c.toNat := by
      omega
    rw [harith]
    rw [if_neg (by simp; omega)]
    rw [Char.ofNat_toNat]
  · rw [escapeChar, if_neg h1, if_neg h2, if_neg h3, if_neg h4, if_neg h5, if_neg h6,
      if_neg h7, if_neg h8]
    rw [List.cons_append, List.nil_append]
    rw [parseJString.eq_def]
    simp [h1, h2, h8]

theorem parseJString_ser (s : List Char) : ∀ rest,
    parseJString (s.flatMap escapeChar ++ '"' :: rest) = some (s, rest) := by
  induction s with
  | nil => intro rest; rfl
  | cons c cs ih =>
    intro rest
    rw [List.flatMap_cons, List.append_assoc, parseJString_escape, ih]
    rfl

/-! ### Heads of serialized output and parser branch reductions -/

theorem digit_ne_specials (c : Char) (h : isDigitChar c = true) :
    isWsChar c = false ∧ c ≠ 'n' ∧ c ≠ 't' ∧ c ≠ 'f' ∧ c ≠ '"' ∧ c ≠ '-' ∧
    c ≠ '[' ∧ c ≠ '{' ∧ c ≠ ']' ∧ c ≠ '}' ∧ c ≠ ',' ∧ c ≠ ':' := by
  have hv : 48 ≤ c.toNat ∧ c.toNat ≤ 57 := by simpa [isDigitChar] using h
  have hsp : c ≠ ' ' := by intro hEq; rw [hEq] at hv; exact absurd hv.1 (by decide)
  have htab : c ≠ '\t' := by intro hEq; rw [hEq] at hv; exact absurd hv.1 (by decide)
  have hnl : c ≠ '\n' := by intro hEq; rw [hEq] at hv; exact absurd hv.1 (by decide)
  have hcr : c ≠ '\r' := by intro hEq; rw [hEq] at hv; exact absurd hv.1 (by decide)
  refine ⟨by simp [isWsChar, hsp, htab, hnl, hcr], ?_, ?_, ?_, ?_, ?_, ?_, ?_, ?_, ?_, ?_, ?_⟩
  all_goals intro hEq; rw [hEq] at hv
  · exact absurd hv.2 (by decide)
  · exact absurd hv.2 (by decide)
  · exact absurd hv.2 (by decide)
  · exact absurd hv.1 (by decide)
  · exact absurd hv.1 (by decide)
  · exact absurd hv.2 (by decide)
  · exact absurd hv.2 (by decide)
  · exact absurd hv.2 (by decide)
  · exact absurd hv.2 (by decide)
  · exact absurd hv.1 (by decide)
  · exact absurd hv.2 (by decide)

theorem dropWs_cons_of_not_ws (c : Char) (t : List Char) (h : isWsChar c = false) :
    dropWs (c :: t) = c :: t := by
  rw [dropWs, if_neg (by rw [h]; exact Bool.false_ne_true)]

theorem jserialize_head (v : JValue) :
    ∃ c t, jserialize v = c :: t ∧ isWsChar c = false ∧ c ≠ ']' ∧ c ≠ '}' := by
  cases v with
  | null =>
    refine ⟨'n', _, rfl, ?_, ?_, ?_⟩ <;> decide
  | bool b =>
    cases b with
    | true => refine ⟨'t', _, rfl, ?_, ?_, ?_⟩ <;> decide
    | false => refine ⟨'f', _, rfl, ?_, ?_, ?_⟩ <;> decide
  | str s =>
    refine ⟨'"', _, rfl, ?_, ?_, ?_⟩ <;> decide
  | arr items =>
    refine ⟨'[', _, rfl, ?_, ?_, ?_⟩ <;> decide
  | obj entries =>
    refine ⟨'{', _, rfl, ?_, ?_, ?_⟩ <;> decide
  | num n =>
    rw [jserialize, intChars]
    by_cases hn : n < 0
    · rw [if_pos hn]
      refine ⟨'-', _, rfl, ?_, ?_, ?_⟩ <;> decide
    · rw [if_neg hn]
      obtain ⟨d, ds, hsh⟩ := List.exists_cons_of_ne_nil (natChars_ne_nil n.natAbs)
      have hd : isDigitChar d = true := natChars_digits n.natAbs d (by rw [hsh]; simp)
      obtain ⟨hws, _, _, _, _, _, _, _, hbr, hbc, _, _⟩ := digit_ne_specials d hd
      exact ⟨d, ds, hsh, hws, hbr, hbc⟩

theorem parseJValue_digit_branch (fuel : Nat) (c0 : Char) (t : List Char)
    (hd : isDigitChar c0 = true) :
    parseJValue (fuel + 1) (c0 :: t)
      = (parseNatNum (c0 :: t)).map (fun p => (JValue.num (p.1 : Int), p.2)) := by
  obtain ⟨hws, hn, ht, hf, hq, hm, hbk, hbc, _, _, _, _⟩ := digit_ne_specials c0 hd
  rw [parseJValue]
  rw [dropWs_cons_of_not_ws c0 t hws]
  simp [hn, ht, hf, hq, hm, hbk, hbc, hd]

theorem serItems_starts (v : JValue) (vs : List JValue) :
    ∃ u, serItems (v :: vs) = jserialize v ++ u := by
  cases vs with
  | nil => exact ⟨[], by simp [serItems]⟩
  | cons y ys => exact ⟨',' :: serItems (y :: ys), rfl⟩

theorem serEntries_starts (k : List Char) (v : JValue) (es : List (List Char × JValue)) :
    ∃ u, serEntries ((k, v) :: es)
      = '"' :: (k.flatMap escapeChar ++ '"' :: ':' :: (jserialize v ++ u)) := by
  cases es with
  | nil =>
    refine ⟨[], ?_⟩
    rw [serEntries, serStr]
    simp
  | cons e es2 =>
    refine ⟨',' :: serEntries (e :: es2), ?_⟩
    rw [serEntries, serStr]
    simp

theorem parseJValue_arr_branch (fuel : Nat) (v : JValue) (vs : List JValue)
    (rest : List Char) :
    parseJValue (fuel + 1) ('[' :: (serItems (v :: vs) ++ ']' :: rest))
      = (parseItems fuel (serItems (v :: vs) ++ ']' :: rest)).map
          (fun p => (JValue.arr p.1, p.2)) := by
  obtain ⟨c, t, hsh, hws, hbr, _⟩ := jserialize_head v
  obtain ⟨u, hu⟩ := serItems_starts v vs
  have hshape : serItems (v :: vs) ++ ']' :: rest = c :: (t ++ u ++ ']' :: rest) := by
    rw [hu, hsh]
    simp
  have hstep : parseJValue (fuel + 1) ('[' :: (serItems (v :: vs) ++ ']' :: rest))
      = (match dropWs (serItems (v :: vs) ++ ']' :: rest) with
         | ']' :: r2 => some (JValue.arr [], r2)
         | r2 => (parseItems fuel r2).map (fun p => (JValue.arr p.1, p.2))) := by
    rw [parseJValue, dropWs_cons_of_not_ws '[' _ (by decide)]
    rfl
  rw [hstep, hshape, dropWs_cons_of_not_ws c _ hws]
  have hred : (match c :: (t ++ u ++ ']' :: rest) with
      | ']' :: r2 => some (JValue.arr [], r2)
      | r2 => (parseItems fuel r2).map (fun p => (JValue.arr p.1, p.2)))
      = (parseItems fuel (c :: (t ++ u ++ ']' :: rest))).map
          (fun p => (JValue.arr p.1, p.2)) := by
    split
    · rename_i r2 heq
      injection heq with h1 h2
      exact absurd h1 hbr
    · rfl
  rw [hred, ← hshape]

theorem parseJValue_obj_branch (fuel : Nat) (k : List Char) (v : JValue)
    (es : List (List Char × JValue)) (rest : List Char) :
    parseJValue (fuel + 1) ('{' :: (serEntries ((k, v) :: es) ++ '}' :: rest))
      = (parseEntries fuel [] (serEntries ((k, v) :: es) ++ '}' :: rest)).map
          (fun p => (JValue.obj p.1, p.2)) := by
  obtain ⟨u, hu⟩ := serEntries_starts k v es
  have hshape : serEntries ((k, v) :: es) ++ '}' :: rest
      = '"' :: (k.flatMap escapeChar ++ '"' :: ':' :: (jserialize v ++ u) ++ '}' :: rest) := by
    rw [hu]
    simp
  have hstep : parseJValue (fuel + 1) ('{' :: (serEntries ((k, v) :: es) ++ '}' :: rest))
      = (match dropWs (serEntries ((k, v) :: es) ++ '}' :: rest) with
         | '}' :: r2 => some (JValue.obj [], r2)
         | r2 => (parseEntries fuel [] r2).map (fun p => (JValue.obj p.1, p.2))) := by
    rw [parseJValue, dropWs_cons_of_not_ws '{' _ (by decide)]
    rfl
  rw [hstep, hshape, dropWs_cons_of_not_ws '"' _ (by decide)]
  have hred : (match ('"' :: (k.flatMap escapeChar ++ '"' :: ':' :: (jserialize v ++ u)
        ++ '}' :: rest) : List Char) with
      | '}' :: r2 => some (JValue.obj [], r2)
      | r2 => (parseEntries fuel [] r2).map (fun p => (JValue.obj p.1, p.2)))
      = (parseEntries fuel [] ('"' :: (k.flatMap escapeChar ++ '"' :: ':'
          :: (jserialize v ++ u) ++ '}' :: rest))).map
          (fun p => (JValue.obj p.1, p.2)) := rfl
  rw [hred, ← hshape]

theorem rt_all : ∀ fuel,
    (∀ v rest, WFJ v → (jserialize v).length < fuel →
      (∀ c t, rest = c :: t → isDigitChar c = false) →
      parseJValue fuel (jserialize v ++ rest) = some (v, rest)) ∧
    (∀ v vs rest, (∀ x ∈ v :: vs, WFJ x) →
      (serItems (v :: vs)).length + 1 < fuel →
      parseItems fuel (serItems (v :: vs) ++ ']' :: rest) = some (v :: vs, rest)) ∧
    (∀ k v es acc rest, (∀ p ∈ (k, v) :: es, WFJ p.2) →
      entriesSorted ((k, v) :: es) →
      (∀ p ∈ acc, keyLt p.1 k = true) →
      (serEntries ((k, v) :: es)).length + 1 < fuel →
      parseEntries fuel acc (serEntries ((k, v) :: es) ++ '}' :: rest)
        = some (acc ++ (k, v) :: es, rest)) := by
  intro fuel
  induction fuel with
  | zero =>
    refine ⟨?_, ?_, ?_⟩
    · intro v rest _ hlen _
      exact absurd hlen (by omega)
    · intro v vs rest _ hlen
      exact absurd hlen (by omega)
    · intro k v es acc rest _ _ _ hlen
      exact absurd hlen (by omega)
  | succ fuel ih =>
    obtain ⟨ihv, ihi, ihe⟩ := ih
    refine ⟨?_, ?_, ?_⟩
    · intro v rest hwf hlen hdelim
      cases v with
      | null => rfl
      | bool b => cases b <;> rfl
      | num n =>
        by_cases hneg : n < 0
        · have hser : jserialize (.num n) = '-' :: natChars n.natAbs := by
            rw [jserialize, intChars, if_pos hneg]
          rw [hser, List.cons_append]
          have hstep : ∀ X, parseJValue (fuel + 1) ('-' :: X)
              = (parseNatNum X).map (fun p => (JValue.num (-(p.1 : Int)), p.2)) := by
            intro X
            rw [parseJValue, dropWs_cons_of_not_ws '-' _ (by decide)]
            rfl
          rw [hstep, parseNatNum_natChars n.natAbs rest hdelim]
          have hval : (-(n.natAbs : Int)) = n := by omega
          rw [Option.map_some']
          rw [hval]
        · have hser : jserialize (.num n) = natChars n.natAbs := by
            rw [jserialize, intChars, if_neg hneg]
          obtain ⟨d, ds, hdsh⟩ := List.exists_cons_of_ne_nil (natChars_ne_nil n.natAbs)
          have hd : isDigitChar d = true := natChars_digits n.natAbs d (by rw [hdsh]; simp)
          have hshape : jserialize (.num n) ++ rest = d :: (ds ++ rest) := by
            rw [hser, hdsh]
            simp
          rw [hshape, parseJValue_digit_branch fuel d (ds ++ rest) hd]
          have hback : d :: (ds ++ rest) = natChars n.natAbs ++ rest := by
            rw [hdsh]
            simp
          rw [hback, parseNatNum_natChars n.natAbs rest hdelim]
          have hval : ((n.natAbs : Nat) : Int) = n := by omega
          rw [Option.map_some']
          rw [hval]
      | str s =>
        have hshape : jserialize (.str s) ++ rest
            = '"' :: (s.flatMap escapeChar ++ '"' :: rest) := by
          rw [jserialize, serStr]
          simp
        have hstep : ∀ X, parseJValue (fuel + 1) ('"' :: X)
            = (parseJString X).map (fun p => (JValue.str p.1, p.2)) := by
          intro X
          rw [parseJValue, dropWs_cons_of_not_ws '"' _ (by decide)]
          rfl
        rw [hshape, hstep, parseJString_ser s rest]
        rfl
      | arr items =>
        cases items with
        | nil => rfl
        | cons v vs =>
          have hwfm : ∀ x ∈ v :: vs, WFJ x := by
            cases hwf with
            | arr _ h => exact h
          have hshape : jserialize (.arr (v :: vs)) ++ rest
              = '[' :: (serItems (v :: vs) ++ ']' :: rest) := by
            rw [jserialize]
            simp
          have hbound : (serItems (v :: vs)).length + 1 < fuel := by
            rw [jserialize] at hlen
            simp only [List.length_cons, List.length_append, List.length_singleton] at hlen
            omega
          rw [hshape, parseJValue_arr_branch fuel v vs rest,
            ihi v vs rest hwfm hbound]
          rfl
      | obj entries =>
        cases entries with
        | nil => rfl
        | cons e es =>
          obtain ⟨k, v⟩ := e
          have hsorted : entriesSorted ((k, v) :: es) := by
            cases hwf with
            | obj _ hs _ => exact hs
          have hwfm : ∀ p ∈ (k, v) :: es, WFJ p.2 := by
            cases hwf with
            | obj _ _ hw => exact hw
          have hshape : jserialize (.obj ((k, v) :: es)) ++ rest
              = '{' :: (serEntries ((k, v) :: es) ++ '}' :: rest) := by
            rw [jserialize]
            simp
          have hbound : (serEntries ((k, v) :: es)).length + 1 < fuel := by
            rw [jserialize] at hlen
            simp only [List.length_cons, List.length_append, List.length_singleton] at hlen
            omega
          rw [hshape, parseJValue_obj_branch fuel k v es rest,
            ihe k v es [] rest hwfm hsorted (by intro p hp; cases hp) hbound]
          rfl
    · intro v vs rest hwfm hbound
      cases vs with
      | nil =>
        have hone : serItems [v] = jserialize v := by
          rw [serItems]
        have hlenv : (jserialize v).length < fuel := by
          rw [hone] at hbound
          omega
        have hdel : ∀ c t, (']' :: rest : List Char) = c :: t → isDigitChar c = false := by
          intro c t hct
          injection hct with h1 _
          rw [← h1]
          decide
        rw [hone]
        simp only [parseItems]
        rw [ihv v (']' :: rest) (hwfm v (by simp)) hlenv hdel]
        rfl
      | cons y ys =>
        have htwo : serItems (v :: y :: ys) = jserialize v ++ ',' :: serItems (y :: ys) := by
          rw [serItems]
        have hlenv : (jserialize v).length < fuel := by
          rw [htwo] at hbound
          simp only [List.length_append, List.length_cons] at hbound
          omega
        have hlentail : (serItems (y :: ys)).length + 1 < fuel := by
          rw [htwo] at hbound
          simp only [List.length_append, List.length_cons] at hbound
          obtain ⟨c, t, hsh, _, _, _⟩ := jserialize_head v
          have : (jserialize v).length = t.length + 1 := by rw [hsh]; simp
          omega
        have hshape : serItems (v :: y :: ys) ++ ']' :: rest
            = jserialize v ++ (',' :: (serItems (y :: ys) ++ ']' :: rest)) := by
          rw [htwo]
          simp
        have hdel : ∀ c t, (',' :: (serItems (y :: ys) ++ ']' :: rest) : List Char) = c :: t →
            isDigitChar c = false := by
          intro c t hct
          injection hct with h1 _
          rw [← h1]
          decide
        rw [hshape]
        simp only [parseItems]
        rw [ihv v _ (hwfm v (by simp)) hlenv hdel]
        have hred : dropWs (',' :: (serItems (y :: ys) ++ ']' :: rest))
            = ',' :: (serItems (y :: ys) ++ ']' :: rest) :=
          dropWs_cons_of_not_ws _ _ (by decide)
        have htail := ihi y ys rest (fun x hx => hwfm x (by simp [hx])) hlentail
        simp only [hred, htail, Option.map_some']
    · intro k v es acc rest hwfm hsorted hacc hbound
      cases es with
      | nil =>
        have hshape : serEntries [(k, v)] ++ '}' :: rest
            = '"' :: (k.flatMap escapeChar ++ '"' :: (':' :: (jserialize v ++ '}' :: rest))) := by
          rw [serEntries, serStr]
          simp
        have hlenv : (jserialize v).length < fuel := by
          rw [serEntries, serStr] at hbound
          simp only [List.length_append, List.length_cons] at hbound
          omega
        have hdel : ∀ c t, ('}' :: rest : List Char) = c :: t → isDigitChar c = false := by
          intro c t hct
          injection hct with h1 _
          rw [← h1]
          decide
        have hv := ihv v ('}' :: rest) (hwfm (k, v) (by simp)) hlenv hdel
        have hins := mapInsert_append k v acc hacc
        rw [hshape]
        simp only [parseEntries]
        rw [dropWs_cons_of_not_ws '"' _ (by decide)]
        simp only [parseJString_ser k (':' :: (jserialize v ++ '}' :: rest)),
          dropWs_cons_of_not_ws ':' _ (by decide), hv,
          dropWs_cons_of_not_ws '}' _ (by decide), hins]
      | cons e2 es2 =>
        obtain ⟨k2, v2⟩ := e2
        have hshape : serEntries ((k, v) :: (k2, v2) :: es2) ++ '}' :: rest
            = '"' :: (k.flatMap escapeChar ++ '"' :: (':' :: (jserialize v
                ++ ',' :: (serEntries ((k2, v2) :: es2) ++ '}' :: rest)))) := by
          rw [serEntries, serStr]
          simp
        have hlenv : (jserialize v).length < fuel := by
          rw [serEntries, serStr] at hbound
          simp only [List.length_append, List.length_cons] at hbound
          omega
        have hlentail : (serEntries ((k2, v2) :: es2)).length + 1 < fuel := by
          rw [serEntries, serStr] at hbound
          simp only [List.length_append, List.length_cons] at hbound
          obtain ⟨c, t, hsh, _, _, _⟩ := jserialize_head v
          have : (jserialize v).length = t.length + 1 := by rw [hsh]; simp
          omega
        have hdel : ∀ c t, (',' :: (serEntries ((k2, v2) :: es2) ++ '}' :: rest) : List Char)
            = c :: t → isDigitChar c = false := by
          intro c t hct
          injection hct with h1 _
          rw [← h1]
          decide
        have hv := ihv v _ (hwfm (k, v) (by simp)) hlenv hdel
        have hins := mapInsert_append k v acc hacc
        have hkk2 : keyLt k k2 = true := by
          rw [entriesSorted, List.pairwise_cons] at hsorted
          exact hsorted.1 (k2, v2) (by simp)
        have hacc2 : ∀ p ∈ mapInsert k v acc, keyLt p.1 k2 = true := by
          intro p hp
          rcases mem_mapInsert k v acc p hp with hh | hh
          · rw [hh]
            exact hkk2
          · exact keyLt_trans _ _ _ (hacc p hh) hkk2
        have hsorted2 : entriesSorted ((k2, v2) :: es2) := by
          rw [entriesSorted, List.pairwise_cons] at hsorted
          exact hsorted.2
        have htail := ihe k2 v2 es2 (mapInsert k v acc) rest
          (fun p hp => hwfm p (by simp [hp])) hsorted2 hacc2 hlentail
        rw [hins] at htail
        rw [hshape]
        simp only [parseEntries]
        rw [dropWs_cons_of_not_ws '"' _ (by decide)]
        simp only [parseJString_ser k
            (':' :: (jserialize v ++ ',' :: (serEntries ((k2, v2) :: es2) ++ '}' :: rest))),
          dropWs_cons_of_not_ws ':' _ (by decide), hv,
          dropWs_cons_of_not_ws ',' _ (by decide), hins, htail]
        simp

theorem jparse_jserialize (v : JValue) (hwf : WFJ v) :
    jparse (jserialize v) = some v := by
  have h := (rt_all ((jserialize v).length + 1)).1 v [] hwf (by omega)
    (by intro c t hct; cases hct)
  rw [List.append_nil] at h
  rw [jparse, h]
  rfl

theorem jparse_wf (cs : List Char) (v : JValue) (h : jparse cs = some v) : WFJ v := by
  rw [jparse] at h
  cases hp : parseJValue (cs.length + 1) cs with
  | none => rw [hp] at h; cases h
  | some p =>
    rw [hp] at h
    dsimp only at h
    split at h
    · cases h
      exact (parse_wf_all _).1 cs p.1 p.2 (by rw [hp])
    · cases h

/-- C9: for every string x that the model parser accepts with value v,
compact_json succeeds on x with the canonical serialization of v, and
parse-then-serialize of the compacted text equals parse-then-serialize
of x: compaction removes only insignificant whitespace and preserves
every value, string contents included. -/
theorem compact_json_roundtrip (x : List Char) (v : JValue) (h : jparse x = some v) :
    compactJson x = some (jserialize v) ∧
    parseThenSerialize (compactJson x).get! = parseThenSerialize x := by
  have hwf := jparse_wf x v h
  have hrt := jparse_jserialize v hwf
  have hc : compactJson x = some (jserialize v) := by
    rw [compactJson, h]
    rfl
  refine ⟨hc, ?_⟩
  rw [hc]
  rw [Option.get!_some]
  rw [parseThenSerialize, parseThenSerialize, h, hrt]

/-- C9 witness: the round-trip theorem at a concrete whitespaced
document with an object, an array, a number, null and a string. -/
theorem compact_json_roundtrip_witness :
    jparse " \x7b \"b\" : [ 1 , null ] , \"a\" : \"x\" \x7d ".data
      = some (.obj [("a".data, .str "x".data), ("b".data, .arr [.num 1, .null])]) ∧
    (compactJson " \x7b \"b\" : [ 1 , null ] , \"a\" : \"x\" \x7d ".data
      = some (jserialize (.obj [("a".data, .str "x".data),
          ("b".data, .arr [.num 1, .null])])) ∧
    parseThenSerialize (compactJson
        " \x7b \"b\" : [ 1 , null ] , \"a\" : \"x\" \x7d ".data).get!
      = parseThenSerialize " \x7b \"b\" : [ 1 , null ] , \"a\" : \"x\" \x7d ".data) :=
  ⟨by rfl, compact_json_roundtrip _ _ (by rfl)⟩
